import Mathlib

set_option linter.unusedVariables false
set_option maxRecDepth 8000

namespace Teams

/-! Shallow embedding of the teams_chats_privados exporter
(device_chat_exporter.py, attachment_downloader.py, device_auth.py, config.py).
Strings are modelled as Lean strings, with character-list workers for the
scanning functions; JSON payloads as an inductive JVal; Python exceptions as
Except PyExc; the HTTP layer as a scripted list of responses consumed in
order, with an observable event trace (requests, sleeps, token operations). -/

/-- JSON values as returned by response.json(); object fields keep insertion
order, as Python dicts do. -/
inductive JVal where
  | null
  | bool (b : Bool)
  | num (n : Int)
  | str (s : String)
  | arr (elems : List JVal)
  | obj (fields : List (String × JVal))

/-- Python truthiness of a JSON value: None, False, 0, empty string, empty
list and empty dict are falsy. -/
def truthy : JVal → Bool
  | .null => false
  | .bool b => b
  | .num n => n != 0
  | .str s => s != ""
  | .arr l => !l.isEmpty
  | .obj l => !l.isEmpty

/-- The single kind of Python exception the model tracks (TypeError,
AttributeError and friends are not distinguished by any claim). -/
inductive PyExc where
  | raised

/-- First binding of a key in a field list (Python dict lookup; keys in a
parsed JSON object are unique, later duplicates are unreachable). -/
def jlookup (k : String) : List (String × JVal) → Option JVal
  | [] => none
  | (k', v) :: rest => if k' = k then some v else jlookup k rest

/-- Python d.get(k): None when the key is absent; raises (AttributeError)
when the receiver is not a dict. -/
def jget (v : JVal) (k : String) : Except PyExc JVal :=
  match v with
  | .obj fs => .ok ((jlookup k fs).getD .null)
  | _ => .error .raised

/-- Python d.get(k, default): the default only applies when the key is
absent, a stored None is returned as such; raises on a non-dict receiver. -/
def jgetD (v : JVal) (k : String) (d : JVal) : Except PyExc JVal :=
  match v with
  | .obj fs => .ok ((jlookup k fs).getD d)
  | _ => .error .raised

/-- Python x or \x7b\x7d: the left operand when truthy, else an empty dict. -/
def orObj (v : JVal) : JVal := if truthy v then v else .obj []

/-- Iterating a value as a list; a non-list raises (modelling choice: the
sources only ever iterate JSON arrays here). -/
def asArr : JVal → Except PyExc (List JVal) :=
  fun v => match v with
  | .arr l => .ok l
  | _ => .error .raised

/-- Python len(): defined on lists, strings and dicts; raises on None and
numbers. -/
def pyLen : JVal → Except PyExc Nat :=
  fun v => match v with
  | .arr l => .ok l.length
  | .str s => .ok s.length
  | .obj fs => .ok fs.length
  | _ => .error .raised

def isObj : JVal → Bool
  | .obj _ => true
  | _ => false

/-- Python equality test of a value against a string literal (a non-string
compares unequal, never raises). -/
def isStrEq (v : JVal) (s : String) : Bool :=
  match v with
  | .str t => t == s
  | _ => false

/-- Python str() as used inside f-strings. The list and dict cases stand in
for the Python repr; no claim exercises them. -/
def pyStr : JVal → String
  | .null => "None"
  | .bool true => "True"
  | .bool false => "False"
  | .num n => toString n
  | .str s => s
  | .arr _ => "<list>"
  | .obj _ => "<dict>"

/-- Build a string from a character list. -/
def strOf (cs : List Char) : String := ⟨cs⟩

/-- Substring test, Python needle in hay for strings (character lists). -/
def containsSub (needle : List Char) : List Char → Bool
  | [] => needle.isEmpty
  | h :: t => needle.isPrefixOf (h :: t) || containsSub needle t

/-- Index of the last occurrence of a character (str.rfind). -/
def lastIdxOf (c : Char) : List Char → Option Nat
  | [] => none
  | x :: rest =>
    match lastIdxOf c rest with
    | some i => some (i + 1)
    | none => if x = c then some 0 else none

/-- str.split(sep) for a one-character separator: adjacent separators yield
empty fields, as in Python. -/
def splitOnChar (c : Char) : List Char → List (List Char)
  | [] => [[]]
  | x :: rest =>
    let r := splitOnChar c rest
    if x = c then [] :: r
    else
      match r with
      | [] => [[x]]
      | h :: t => (x :: h) :: t

/-- os.path.splitext (posixpath): split at the last dot that comes after the
last slash, unless every character between them is a dot. -/
def splitext (p : List Char) : List Char × List Char :=
  match lastIdxOf '.' p with
  | none => (p, [])
  | some d =>
    let s := match lastIdxOf '/' p with
      | none => 0
      | some i => i + 1
    if s ≤ d then
      if (List.range' s (d - s)).any (fun k => p.getD k '.' != '.') then
        (p.take d, p.drop d)
      else (p, [])
    else (p, [])

/-- os.path.basename: everything after the last slash. -/
def basenameChars (p : List Char) : List Char :=
  (p.reverse.takeWhile (· != '/')).reverse

/-- os.path.join(dir, name) for the shapes used by the sources (posixpath:
an absolute name replaces dir; otherwise a slash is inserted unless dir is
empty or already ends in one). -/
def joinPath (dir name : String) : String :=
  if name.toList.headD ' ' = '/' then name
  else if dir = "" then name
  else if dir.toList.getLastD ' ' = '/' then dir ++ name
  else dir ++ "/" ++ name

/-- urllib.parse.urlparse, restricted to the absolute http(s) URLs the
sources handle: netloc sits between the scheme separator and the next
slash, question mark or hash; the path runs to the query or fragment. -/
def urlSchemeSplit (cs : List Char) : Option (List Char) :=
  match cs with
  | [] => none
  | c :: rest =>
    if (':' :: '/' :: '/' :: []).isPrefixOf (c :: rest) then some ((c :: rest).drop 3)
    else urlSchemeSplit rest

def urlparseNetloc (url : List Char) : List Char :=
  match urlSchemeSplit url with
  | some rest => rest.takeWhile (fun c => c != '/' && c != '?' && c != '#')
  | none => []

def urlparsePath (url : List Char) : List Char :=
  match urlSchemeSplit url with
  | some rest =>
    let netloc := rest.takeWhile (fun c => c != '/' && c != '?' && c != '#')
    (rest.drop netloc.length).takeWhile (fun c => c != '?' && c != '#')
  | none => url.takeWhile (fun c => c != '?' && c != '#')

def isHexDigit (c : Char) : Bool :=
  ('0' ≤ c && c ≤ '9') || ('a' ≤ c && c ≤ 'f') || ('A' ≤ c && c ≤ 'F')

def hexVal (c : Char) : Nat :=
  if '0' ≤ c && c ≤ '9' then c.toNat - '0'.toNat
  else if 'a' ≤ c && c ≤ 'f' then c.toNat - 'a'.toNat + 10
  else c.toNat - 'A'.toNat + 10

/-- urllib.parse.unquote for single-byte percent escapes (an invalid escape
is left verbatim, as in Python; multi-byte UTF-8 escape sequences are out of
the claims' reach and are decoded bytewise here). -/
def unquoteChars : List Char → List Char
  | '%' :: a :: b :: rest =>
    if isHexDigit a && isHexDigit b then
      Char.ofNat (16 * hexVal a + hexVal b) :: unquoteChars rest
    else '%' :: unquoteChars (a :: b :: rest)
  | c :: rest => c :: unquoteChars rest
  | [] => []

/-! Character-level models of the regular expressions used by the sources.
Each matcher reproduces the Python re semantics for its one fixed pattern:
leftmost match, greedy quantifiers with backtracking, scanning resumed after
the end of each match (re.findall), or at the next position on failure. -/

/-- Strip a literal from the front of a string, if present. -/
def dropLit (lit cs : List Char) : Option (List Char) :=
  if lit.isPrefixOf cs then some (cs.drop lit.length) else none

/-- All decompositions cs = before ++ sep ++ after, shortest before first. -/
def splitsAsc (sep : List Char) : List Char → List (List Char × List Char)
  | [] => if sep.isEmpty then [([], [])] else []
  | c :: rest =>
    let tailSplits := (splitsAsc sep rest).map (fun pr => (c :: pr.1, pr.2))
    if sep.isPrefixOf (c :: rest) then ([], (c :: rest).drop sep.length) :: tailSplits
    else tailSplits

def hostedLit1 : List Char := "https://graph.microsoft.com/v1.0/chats/".toList
def hostedSep2 : List Char := "/hostedContents/".toList
def hostedSep3 : List Char := "/$value".toList

/-- One attempted match, at the current position, of the hosted-content
pattern of extract_hosted_content_urls (both sources):
a literal prefix, then a greedy nonempty quote-free run, the literal
/hostedContents/, another greedy nonempty quote-free run, and a closing
literal. Greedy backtracking is realised by trying the longest first run
first, and for each of those the longest second run. Returns the matched
text and the remainder after the match. -/
def matchAtHosted (cs : List Char) : Option (List Char × List Char) :=
  match dropLit hostedLit1 cs with
  | none => none
  | some rest =>
    let run := rest.takeWhile (· != '"')
    let restAfterRun := rest.drop run.length
    (splitsAsc hostedSep2 run).reverse.findSome? (fun xt =>
      if xt.1.isEmpty then none
      else
        (splitsAsc hostedSep3 xt.2).reverse.findSome? (fun yt =>
          if yt.1.isEmpty then none
          else some (hostedLit1 ++ xt.1 ++ hostedSep2 ++ yt.1 ++ hostedSep3,
                     yt.2 ++ restAfterRun)))

/-- re.findall scanning: try the matcher at each position left to right;
on a match, emit it and resume after its end. Fuel is the input length
(every step consumes at least one character: all patterns here begin with a
nonempty literal). -/
def findallWith (matchAt : List Char → Option (List Char × List Char)) :
    Nat → List Char → List (List Char)
  | 0, _ => []
  | _ + 1, [] => []
  | fuel + 1, c :: rest =>
    match matchAt (c :: rest) with
    | some (m, after) => m :: findallWith matchAt fuel after
    | none => findallWith matchAt fuel rest

def findallHosted (cs : List Char) : List (List Char) :=
  findallWith matchAtHosted cs.length cs

/-- re.search for the itemid pattern of extract_hosted_content_urls: the
first position bearing the literal, a nonempty greedy run of non-quote
characters, and a closing quote; the captured group is returned. -/
def searchItemId : List Char → Option (List Char)
  | [] => none
  | c :: rest =>
    match dropLit "itemid=\"".toList (c :: rest) with
    | some after =>
      let g := after.takeWhile (· != '"')
      if g.isEmpty then searchItemId rest
      else if (after.drop g.length).isEmpty then searchItemId rest
      else some g
    | none => searchItemId rest

/-- Case-insensitive character comparison (re.IGNORECASE). -/
def lowerEq (a b : Char) : Bool := a.toLower == b.toLower

def isPrefixCI : List Char → List Char → Bool
  | [], _ => true
  | _ :: _, [] => false
  | a :: as, b :: bs => lowerEq a b && isPrefixCI as bs

def containsCI (pat : List Char) : List Char → Bool
  | [] => pat.isEmpty
  | c :: t => isPrefixCI pat (c :: t) || containsCI pat t

def httpsLit : List Char := "https://".toList

/-- One attempted match of the case-insensitive keyword patterns of the
heuristic file-URL scan (the sharepoint and onedrive patterns): the https
prefix, a greedy quote-free run that must contain the keyword. Both starred
runs are greedy, so a successful match always extends to the end of the
quote-free run. -/
def matchAtKw (kw : List Char) (cs : List Char) : Option (List Char × List Char) :=
  if isPrefixCI httpsLit cs then
    let rest := cs.drop 8
    let run := rest.takeWhile (· != '"')
    if containsCI kw run then some (cs.take 8 ++ run, rest.drop run.length)
    else none
  else none

/-- Alternatives of the document-extension pattern, in source order; the
Python alternation tries them left to right, so docx, xlsx and pptx are
shadowed by their three-letter prefixes. -/
def extAlts : List (List Char) :=
  ["pdf", "doc", "docx", "xls", "xlsx", "ppt", "pptx", "zip", "rar", "txt"].map String.toList

/-- One attempted match of the case-insensitive document-extension pattern
of the heuristic scan: the https prefix, a greedy quote-free run, a literal
dot and the first alternative that matches. Greedy backtracking tries the
latest dot of the run first. -/
def matchAtExt (cs : List Char) : Option (List Char × List Char) :=
  if isPrefixCI httpsLit cs then
    let rest := cs.drop 8
    let run := rest.takeWhile (· != '"')
    let restAfterRun := rest.drop run.length
    (splitsAsc ['.'] run).reverse.findSome? (fun xt =>
      (extAlts.findSome? (fun e => if isPrefixCI e xt.2 then some e else none)).map
        (fun e => (cs.take 8 ++ xt.1 ++ ['.'] ++ xt.2.take e.length,
                   xt.2.drop e.length ++ restAfterRun)))
  else none

def findallKw (kw : List Char) (cs : List Char) : List (List Char) :=
  findallWith (matchAtKw kw) cs.length cs

def findallExt (cs : List Char) : List (List Char) :=
  findallWith matchAtExt cs.length cs

/-- The three heuristic file-URL patterns of download_chat_attachments and
extract_chat_attachments_info, scanned pattern by pattern, results
concatenated in source order. -/
def heuristicMatches (cs : List Char) : List (List Char) :=
  findallExt cs ++ findallKw "sharepoint".toList cs ++ findallKw "onedrive".toList cs

/-- The heuristic matches that survive the sources' filter
(if "hostedContents" not in match), as strings. -/
def heuristicFileUrls (content : String) : List String :=
  ((heuristicMatches content.toList).filter
    (fun m => !(containsSub "hostedContents".toList m))).map strOf

/-! The request engine of DeviceChatExporter (make_request and the two
paginated traversals), over a scripted transport: responses are consumed in
arrival order, one per HTTP attempt. The trace of observable effects
(requests with their auth header, sleeps in milliseconds, token
invalidation and refresh) is returned alongside the result. -/

/-- config.GRAPH_ENDPOINT. -/
def config_GRAPH_ENDPOINT : String := "https://graph.microsoft.com/v1.0"

/-- Query parameters of a request (requests serialises values; the integer
50 is rendered as its decimal string). -/
def QueryParams := List (String × String)

deriving instance DecidableEq for QueryParams

/-- The params dict of get_my_chats. -/
def chatsParams : QueryParams := [("$expand", "members"), ("$top", "50")]

/-- The params dict of get_messages_from_chat. -/
def messagesParams : QueryParams := [("$top", "50"), ("$orderby", "createdDateTime desc")]

/-- One scripted outcome of requests.get: a response with its status, its
parsed Retry-After header if any, and its body as parsed JSON (none when
the body does not parse as JSON), or a transport-level exception. -/
inductive HttpResult where
  | resp (status : Nat) (retryAfter : Option Nat) (payload : Option JVal)
  | netErr

/-- Client state: the remaining scripted responses, the authenticator's
cached access token (DeviceCodeAuthenticator.access_token), the next token
the device-code flow would mint (the MSAL interaction is abstracted as a
counter supply), and the exporter's current auth header (self.headers,
reduced to the bearer token it carries). -/
structure ReqState where
  transport : List HttpResult
  token : Option Nat
  nextToken : Nat
  headers : Nat

/-- Observable effects, in order of occurrence. -/
inductive Event where
  | request (url : String) (params : Option QueryParams) (authTok : Nat)
  | sleep (ms : Nat)
  | invalidate
  | refresh (tok : Nat)

def isReqEv : Event → Bool
  | .request _ _ _ => true
  | _ => false

/-- DeviceCodeAuthenticator.get_access_token: the cached token when present,
else the device-code login mints a fresh one and caches it. -/
def get_access_token (st : ReqState) : Nat × ReqState :=
  match st.token with
  | some t => (t, st)
  | none => (st.nextToken, { st with token := some st.nextToken, nextToken := st.nextToken + 1 })

/-- DeviceChatExporter.make_request. Status 429 sleeps for the Retry-After
header (60 seconds when absent) and re-issues the identical request; status
401 clears the cached token, rebuilds the headers through
get_access_token, and re-issues; response.raise_for_status raises exactly
on statuses in [400, 600), which the enclosing except turns into None; a
2xx (or any other non-raising status) yields the parsed JSON body, None if
the body does not parse. Fuel bounds the unbounded retry recursion; at 0
the model returns None without an attempt (the Python code would still be
retrying). -/
def make_request : Nat → String → Option QueryParams → ReqState →
    Option JVal × ReqState × List Event
  | 0, _, _, st => (none, st, [])
  | fuel + 1, url, params, st =>
    match st.transport with
    | [] => (none, { st with transport := [] }, [.request url params st.headers])
    | r :: rest =>
      let st1 : ReqState := { st with transport := rest }
      match r with
      | .netErr => (none, st1, [.request url params st.headers])
      | .resp s ra pl =>
        if s = 429 then
          let w := ra.getD 60
          let (res, st2, evs) := make_request fuel url params st1
          (res, st2, .request url params st.headers :: .sleep (1000 * w) :: evs)
        else if s = 401 then
          let stInv : ReqState := { st1 with token := none }
          let (h, stRef) := get_access_token stInv
          let stHdr : ReqState := { stRef with headers := h }
          let (res, st2, evs) := make_request fuel url params stHdr
          (res, st2, .request url params st.headers :: .invalidate :: .refresh h :: evs)
        else if 400 ≤ s ∧ s < 600 then (none, st1, [.request url params st.headers])
        else
          match pl with
          | some p => (some p, st1, [.request url params st.headers])
          | none => (none, st1, [.request url params st.headers])

/-- Reading the next page URL out of data.get from the odata nextLink
field: absent or None ends the loop, an empty string is falsy and also
ends it; a non-string truthy value is not exercised by the sources and is
modelled as a raise. -/
def nextUrlOf : JVal → Except PyExc (Option String)
  | .null => .ok none
  | .str s => .ok (if s = "" then none else some s)
  | v => if truthy v then .error .raised else .ok none

/-- The while loop of get_my_chats: fetch, stop on a falsy payload keeping
what was accumulated, extend with the value array, follow the nextLink with
params cleared. Loop fuel bounds the iteration count. -/
def get_my_chats_loop (rf : Nat) : Nat → Option String → Option QueryParams → ReqState →
    Except PyExc (List JVal × ReqState × List Event)
  | 0, _, _, st => .ok ([], st, [])
  | _ + 1, none, _, st => .ok ([], st, [])
  | lf + 1, some url, params, st =>
    let (res, st1, evs) := make_request rf url params st
    match res with
    | none => .ok ([], st1, evs)
    | some data =>
      if truthy data then do
        let vj ← jgetD data "value" (.arr [])
        let vs ← asArr vj
        let nl ← jget data "@odata.nextLink"
        let next ← nextUrlOf nl
        let (restItems, stF, evs') ← get_my_chats_loop rf lf next none st1
        .ok (vs ++ restItems, stF, evs ++ evs')
      else .ok ([], st1, evs)

/-- DeviceChatExporter.get_my_chats. -/
def get_my_chats (rf lf : Nat) (st : ReqState) :
    Except PyExc (List JVal × ReqState × List Event) :=
  get_my_chats_loop rf lf (some (config_GRAPH_ENDPOINT ++ "/me/chats")) (some chatsParams) st

/-- The in-place tagging of one message inside get_messages_from_chat
(msg["chatInfo"] and msg["sourceType"] assignment); raises on a non-dict. -/
def upsert (fs : List (String × JVal)) (k : String) (v : JVal) : List (String × JVal) :=
  match fs with
  | [] => [(k, v)]
  | (k', v') :: rest => if k' = k then (k', v) :: rest else (k', v') :: upsert rest k v

def setItem (m : JVal) (k : String) (v : JVal) : Except PyExc JVal :=
  match m with
  | .obj fs => .ok (.obj (upsert fs k v))
  | _ => .error .raised

def tagMsg (ci : JVal) (m : JVal) : Except PyExc JVal := do
  let m1 ← setItem m "chatInfo" ci
  setItem m1 "sourceType" (.str "private_chat")

/-- Total counterpart of tagMsg on objects; identity elsewhere. -/
def tagTotal (ci : JVal) : JVal → JVal
  | .obj fs => .obj (upsert (upsert fs "chatInfo" ci) "sourceType" (.str "private_chat"))
  | v => v

/-- The for loop over one page's messages. -/
def tagAll (ci : JVal) : List JVal → Except PyExc (List JVal)
  | [] => .ok []
  | m :: rest => do
    let m' ← tagMsg ci m
    let rest' ← tagAll ci rest
    .ok (m' :: rest')

/-- The while loop of get_messages_from_chat: like the chat loop, but each
batch is tagged before being appended, and a 100 ms pacing sleep follows
every page once the accumulated list is nonempty. The accumulator carries
the messages list of the source. -/
def get_messages_loop (rf : Nat) (ci : JVal) : Nat → Option String → Option QueryParams →
    ReqState → List JVal → Except PyExc (List JVal × ReqState × List Event)
  | 0, _, _, st, acc => .ok (acc, st, [])
  | _ + 1, none, _, st, acc => .ok (acc, st, [])
  | lf + 1, some url, params, st, acc =>
    let (res, st1, evs) := make_request rf url params st
    match res with
    | none => .ok (acc, st1, evs)
    | some data =>
      if truthy data then do
        let vj ← jgetD data "value" (.arr [])
        let batch ← asArr vj
        let tagged ← tagAll ci batch
        let acc' := acc ++ tagged
        let nl ← jget data "@odata.nextLink"
        let next ← nextUrlOf nl
        let pause := if 0 < acc'.length then [Event.sleep 100] else []
        let (resAll, stF, evs') ← get_messages_loop rf ci lf next none st1 acc'
        .ok (resAll, stF, evs ++ pause ++ evs')
      else .ok (acc, st1, evs)

/-- DeviceChatExporter.get_messages_from_chat. -/
def get_messages_from_chat (rf lf : Nat) (chatId : String) (chatInfo : JVal) (st : ReqState) :
    Except PyExc (List JVal × ReqState × List Event) :=
  get_messages_loop rf chatInfo lf
    (some (config_GRAPH_ENDPOINT ++ "/me/chats/" ++ chatId ++ "/messages"))
    (some messagesParams) st []

/-! Content extraction, attachment resolution and file materialisation. -/

/-- DeviceChatExporter.sanitize_filename (identical in
AttachmentDownloader): replace each of the nine filesystem-invalid
characters by an underscore, then truncate a result longer than 200
characters to the first 190 characters of its stem plus its extension. -/
def invalidChar (c : Char) : Bool :=
  c = '<' || c = '>' || c = ':' || c = '"' || c = '/' || c = '\\' ||
  c = '|' || c = '?' || c = '*'

def sanitizeChars (p : List Char) : List Char :=
  p.map (fun c => if invalidChar c then '_' else c)

def sanitize_filename (s : String) : String :=
  let sz := sanitizeChars s.toList
  if 200 < sz.length then
    let ne := splitext sz
    strOf (ne.1.take 190 ++ ne.2)
  else strOf sz

/-- The suggested filename of one hosted-content match: image_\x7bid\x7d.jpg
from the first itemid attribute anywhere in the message body when one
exists, else image_\x7bsegment\x7d.jpg from the third-from-last
slash-separated segment of the matched URL. -/
def hostedName (content m : List Char) : List Char :=
  match searchItemId content with
  | some id => "image_".toList ++ id ++ ".jpg".toList
  | none =>
    let parts := splitOnChar '/' m
    "image_".toList ++ parts.getD (parts.length - 3) [] ++ ".jpg".toList

/-- DeviceChatExporter.extract_hosted_content_urls (identical in
AttachmentDownloader): each hosted-content match of the body paired with
its suggested filename. -/
def extract_hosted_content_urls (content : String) : List (String × String) :=
  (findallHosted content.toList).map
    (fun m => (strOf m, strOf (hostedName content.toList m)))

/-- UTF-8 bytes of a character (str.encode). -/
def utf8Bytes (c : Char) : List Nat :=
  let n := c.toNat
  if n < 128 then [n]
  else if n < 2048 then [192 + n / 64, 128 + n % 64]
  else if n < 65536 then [224 + n / 4096, 128 + n / 64 % 64, 128 + n % 64]
  else [240 + n / 262144, 128 + n / 4096 % 64, 128 + n / 64 % 64, 128 + n % 64]

def utf8Encode (s : String) : List Nat := (s.toList.map utf8Bytes).flatten

def b64Table : List Char :=
  "ABCDEFGHIJKLMNOPQRSTUVWXYZabcdefghijklmnopqrstuvwxyz0123456789+/".toList

def b64Digit (i : Nat) : Char := b64Table.getD i 'A'

/-- base64.b64encode over a byte list. -/
def b64encode : List Nat → List Char
  | [] => []
  | [a] => [b64Digit (a / 4), b64Digit (a % 4 * 16), '=', '=']
  | [a, b] => [b64Digit (a / 4), b64Digit (a % 4 * 16 + b / 16), b64Digit (b % 16 * 4), '=']
  | a :: b :: c :: rest =>
    b64Digit (a / 4) :: b64Digit (a % 4 * 16 + b / 16) ::
      b64Digit (b % 16 * 4 + c / 64) :: b64Digit (c % 64) :: b64encode rest

/-- str.rstrip applied to the padding. -/
def rstripEq (cs : List Char) : List Char := (cs.reverse.dropWhile (· == '=')).reverse

/-- The shares-API URL built by process_sharepoint_attachment: the raw
content URL, UTF-8 encoded, base64 encoded with padding stripped, spliced
into the shares resource path. -/
def sharesUrlOf (u : String) : String :=
  config_GRAPH_ENDPOINT ++ "/shares/u!" ++ strOf (rstripEq (b64encode (utf8Encode u))) ++
    "/driveItem/content"

/-- The me/drive URL of the third strategy. -/
def driveUrlOf (u : String) : String :=
  config_GRAPH_ENDPOINT ++ "/me/drive/root:" ++ strOf (urlparsePath u.toList) ++ ":/content"

/-- DeviceChatExporter.process_sharepoint_attachment. The download calls
are injected as an oracle from URL to success (the filename passed along by
the source is identical for all three attempts and does not influence which
strategy succeeds); the returned list is the sequence of attempted URLs,
standing in for the filepath plumbing. A reference without a truthy
contentUrl makes no attempt; when the URL contains "sharepoint.com" the
shares-API URL is tried first, then the raw URL, then the me/drive URL;
otherwise only the raw URL is tried; each failure is swallowed. -/
def process_sharepoint_attachment (dl : String → Bool) (att : JVal) :
    Except PyExc (Bool × List String) := do
  let cu ← jgetD att "contentUrl" (.str "")
  if truthy cu then
    match cu with
    | .str u => do
      let path := urlparsePath u.toList
      let fname0 := unquoteChars (basenameChars path)
      let _fname ← (if fname0.isEmpty || fname0 = ['/'] then do
          let an ← jgetD att "name" (.str "arquivo_sem_nome")
          let aid ← jgetD att "id" (.str "unknown")
          let base := (pyStr an ++ "_" ++ pyStr aid).toList
          pure (if ".pdf".toList.isSuffixOf base then base else base ++ ".pdf".toList)
        else pure fname0)
      let sp := containsSub "sharepoint.com".toList u.toList
      let firstTry := if sp then (dl (sharesUrlOf u), [sharesUrlOf u]) else (false, [])
      if firstTry.1 then pure (true, firstTry.2)
      else
        let t2 := firstTry.2 ++ [u]
        if dl u then pure (true, t2)
        else if sp then pure (dl (driveUrlOf u), t2 ++ [driveUrlOf u])
        else pure (false, t2)
    | _ => .error .raised
  else pure (false, [])

/-- The filesystem as an association list of path and content; newest
entries first. -/
def FileSys := List (String × List Nat)

def pathExists (fs : FileSys) (p : String) : Bool := fs.any (fun e => e.1 == p)

/-- The collision loop of download_file: while the path exists, re-derive a
candidate from the original path's stem, an underscore, the counter and the
extension. Fuel bounds the unbounded while; none models fuel running out
before a free path is found. -/
def freshLoop (fs : FileSys) (stem ext : List Char) : Nat → Nat → String → Option String
  | 0, _, cur => if pathExists fs cur then none else some cur
  | fuel + 1, counter, cur =>
    if pathExists fs cur then
      freshLoop fs stem ext fuel (counter + 1)
        (strOf (stem ++ '_' :: (toString counter).toList ++ ext))
    else some cur

/-- DeviceChatExporter.download_file (the AttachmentDownloader variant
differs only in directory selection). The response is scripted: none is a
transport exception, otherwise a status and a byte stream. On a 200 the
sanitized name is joined to the directory, the collision loop finds a fresh
path, and the bytes are written there; any other status, or an exception,
downloads nothing. -/
def download_file (resp : Option (Nat × List Nat)) (filename attachments_dir : String)
    (fs : FileSys) (fuel : Nat) : (Bool × Option String) × FileSys :=
  match resp with
  | none => ((false, none), fs)
  | some (status, bytes) =>
    if status = 200 then
      let filepath := joinPath attachments_dir (sanitize_filename filename)
      let ne := splitext filepath.toList
      match freshLoop fs ne.1 ne.2 fuel 1 filepath with
      | some p => ((true, some p), (p, bytes) :: fs)
      | none => ((false, none), fs)
    else ((false, none), fs)

/-- DeviceChatExporter.extract_owner_from_url: the personal/ path segment,
underscores turned into dots and the first dot into an at sign; sistema
when the pattern is absent, desconhecido on a falsy URL. -/
def searchPersonal : List Char → Option (List Char)
  | [] => none
  | c :: rest =>
    match dropLit "personal/".toList (c :: rest) with
    | some after =>
      let g := after.takeWhile (· != '/')
      if g.isEmpty then searchPersonal rest
      else if (after.drop g.length).isEmpty then searchPersonal rest
      else some g
    | none => searchPersonal rest

def replaceAllChar (a b : Char) (cs : List Char) : List Char :=
  cs.map (fun c => if c = a then b else c)

def replaceFirstDot : List Char → List Char
  | [] => []
  | c :: rest => if c = '.' then '@' :: rest else c :: replaceFirstDot rest

def extract_owner_from_url (url : JVal) : Except PyExc String :=
  if !truthy url then .ok "desconhecido"
  else match url with
  | .str s =>
    match searchPersonal s.toList with
    | some g => .ok (strOf (replaceFirstDot (replaceAllChar '_' '.' g)))
    | none => .ok "sistema"
  | _ => .error .raised

/-- DeviceChatExporter.format_chat_info. -/
def memberNames : List JVal → Except PyExc (List JVal)
  | [] => .ok []
  | m :: rest => do
    let d ← jgetD m "displayName" (.str "Usuário desconhecido")
    let ds ← memberNames rest
    .ok (d :: ds)

def format_chat_info (chat : JVal) : Except PyExc String := do
  let ct ← jgetD chat "chatType" (.str "unknown")
  let topic ← jgetD chat "topic" (.str "Sem título")
  let membersJ ← jgetD chat "members" (.arr [])
  let memberList ← asArr membersJ
  let members ← memberNames memberList
  if isStrEq ct "oneOnOne" then
    let others := members.filter (fun m => !isStrEq m "Eu")
    match others.head? with
    | some o => pure ("1:1 com " ++ pyStr o)
    | none => pure ("1:1 (" ++ pyStr topic ++ ")")
  else if isStrEq ct "group" then
    pure ("Grupo: " ++ pyStr topic ++ " (" ++ toString members.length ++ " membros)")
  else
    pure (pyStr ct ++ ": " ++ pyStr topic)

/-- The per-message record built inside save_chat_to_excel. -/
structure XRow where
  id : JVal
  createdDateTime : JVal
  lastModifiedDateTime : JVal
  messageType : JVal
  importance : JVal
  subject : JVal
  body : JVal
  body_contentType : JVal
  from_displayName : JVal
  from_email : JVal
  attachments_count : Nat
  reactions_count : Nat
  mentions_count : Nat
  chat_id : JVal
  chat_topic : JVal
  chat_type : JVal
  chat_display : String

/-- The body of save_chat_to_excel's per-message loop: the from, user,
body and chatInfo containers fall back to an empty dict when absent or
falsy, the counters take the length of the attachments, reactions and
mentions fields defaulted to empty lists when absent (a stored None still
reaches len and raises). -/
def process_excel_row (msg : JVal) : Except PyExc XRow := do
  let fromv ← jget msg "from"
  let from_info := orObj fromv
  let userv ← jget from_info "user"
  let user_info := orObj userv
  let bodyv ← jget msg "body"
  let body_info := orObj bodyv
  let idv ← jget msg "id"
  let created ← jget msg "createdDateTime"
  let modified ← jget msg "lastModifiedDateTime"
  let mtype ← jget msg "messageType"
  let imp ← jget msg "importance"
  let subj ← jgetD msg "subject" (.str "")
  let bodyContent ← jgetD body_info "content" (.str "")
  let bodyCT ← jgetD body_info "contentType" (.str "")
  let fdn ← jgetD user_info "displayName" (.str "")
  let femail ← jgetD user_info "userPrincipalName" (.str "")
  let attsv ← jgetD msg "attachments" (.arr [])
  let nAtt ← pyLen attsv
  let reacts ← jgetD msg "reactions" (.arr [])
  let nReact ← pyLen reacts
  let ments ← jgetD msg "mentions" (.arr [])
  let nMent ← pyLen ments
  let civ ← jget msg "chatInfo"
  let chat_info := orObj civ
  let cid ← jgetD chat_info "id" (.str "")
  let ctopic ← jgetD chat_info "topic" (.str "")
  let ctype ← jgetD chat_info "chatType" (.str "unknown")
  let cdisp ← format_chat_info chat_info
  pure { id := idv, createdDateTime := created, lastModifiedDateTime := modified,
         messageType := mtype, importance := imp, subject := subj, body := bodyContent,
         body_contentType := bodyCT, from_displayName := fdn, from_email := femail,
         attachments_count := nAtt, reactions_count := nReact, mentions_count := nMent,
         chat_id := cid, chat_topic := ctopic, chat_type := ctype, chat_display := cdisp }

/-- The structured-attachment loop of download_chat_attachments for one
message's attachment list: references go through
process_sharepoint_attachment, other content types are skipped; returns
the downloaded and failed tallies. -/
def downloadStructured (dl : String → Bool) : List JVal → Nat × Nat →
    Except PyExc (Nat × Nat)
  | [], acc => .ok acc
  | att :: rest, acc => do
    let ct ← jgetD att "contentType" (.str "")
    if isStrEq ct "reference" then do
      let r ← process_sharepoint_attachment dl att
      downloadStructured dl rest (if r.1 then (acc.1 + 1, acc.2) else (acc.1, acc.2 + 1))
    else downloadStructured dl rest acc

/-- The heuristic-URL download loop of download_chat_attachments over one
message body (the filename derivation of the source is reproduced though it
does not influence the oracle's success). -/
def downloadHeuristic (dl : String → Bool) : List String → Nat × Nat → Nat × Nat
  | [], acc => acc
  | m :: rest, acc =>
    let f := unquoteChars (basenameChars (urlparsePath m.toList))
    let _fname := if f.isEmpty then "arquivo_extraido.file" else strOf f
    downloadHeuristic dl rest (if dl m then (acc.1 + 1, acc.2) else (acc.1, acc.2 + 1))

/-- The per-message body of download_chat_attachments: structured
reference attachments first, then the filtered heuristic URL matches of the
body content. A None body fails at the chained get; a None attachments
field fails at iteration; a truthy non-string body content fails at the
regex scan, as in Python. -/
def download_message_attachments (dl : String → Bool) (msg : JVal) :
    Except PyExc (Nat × Nat) := do
  let attsv ← jgetD msg "attachments" (.arr [])
  let atts ← asArr attsv
  let acc1 ← downloadStructured dl atts (0, 0)
  let bodyv ← jgetD msg "body" (.obj [])
  let contentv ← jgetD bodyv "content" (.str "")
  if truthy contentv then
    match contentv with
    | .str s => .ok (downloadHeuristic dl (heuristicFileUrls s) acc1)
    | _ => .error .raised
  else .ok acc1

/-- One catalogue row of extract_chat_attachments_info. -/
structure Row where
  tipo : String
  message_id : JVal
  message_date : JVal
  from_user : JVal
  attachment_id : JVal
  attachment_name : JVal
  content_type : JVal
  content_url : JVal
  web_url : JVal
  size_bytes : JVal
  observacoes : String

/-- The structured-attachment rows of one message, with the enumerate
index feeding the attachment id default. -/
def structuredRows (mid md fu : JVal) : Nat → List JVal → Except PyExc (List Row)
  | _, [] => .ok []
  | idx, att :: rest => do
    let aid ← jgetD att "id" (.str ("att_" ++ toString idx))
    let aname ← jgetD att "name" (.str "Sem nome")
    let actype ← jgetD att "contentType" (.str "")
    let acurl ← jgetD att "contentUrl" (.str "")
    let obsCT ← jgetD att "contentType" (.str "tipo desconhecido")
    let obsUrl ← jgetD att "contentUrl" (.str "")
    let owner ← extract_owner_from_url obsUrl
    let sz ← jgetD att "size" (.str "")
    let more ← structuredRows mid md fu (idx + 1) rest
    .ok ({ tipo := "attachment", message_id := mid, message_date := md, from_user := fu,
           attachment_id := aid, attachment_name := aname, content_type := actype,
           content_url := acurl, web_url := acurl, size_bytes := sz,
           observacoes := "Anexo estruturado - " ++ pyStr obsCT ++ " - Dono: " ++ owner } :: more)

/-- The hosted-image rows of one message body. -/
def hostedRowsOf (mid md fu : JVal) (content : String) : List Row :=
  (extract_hosted_content_urls content).map (fun uf =>
    { tipo := "hosted_image", message_id := mid, message_date := md, from_user := fu,
      attachment_id := .str uf.2, attachment_name := .str uf.2, content_type := .str "image",
      content_url := .str uf.1, web_url := .str uf.1, size_bytes := .str "",
      observacoes := "Imagem incorporada na mensagem" })

/-- The heuristic file-URL rows of one message body; the counter mirrors
len(attachments_info) at each append. -/
def urlRowsFrom (mid md fu : JVal) : Nat → List String → List Row
  | _, [] => []
  | n, m :: rest =>
    let f := unquoteChars (basenameChars (urlparsePath m.toList))
    let fn := if f.isEmpty then "arquivo_extraido.file" else strOf f
    { tipo := "url_file", message_id := mid, message_date := md, from_user := fu,
      attachment_id := .str ("url_" ++ toString n), attachment_name := .str fn,
      content_type := .str "file_url", content_url := .str m, web_url := .str m,
      size_bytes := .str "", observacoes := "URL de arquivo encontrada no conteúdo da mensagem" }
      :: urlRowsFrom mid md fu (n + 1) rest

/-- The from-user extraction of extract_chat_attachments_info, which
(unlike the Excel writer) checks truthiness and dict-ness explicitly and
never raises. -/
def catalogFromUser (fromv : JVal) : JVal :=
  match fromv with
  | .obj (f :: fs) =>
    (match (jlookup "user" (f :: fs)).getD .null with
     | .obj (u :: us) => (jlookup "displayName" (u :: us)).getD (.str "Usuário desconhecido")
     | _ => .str "Usuário desconhecido")
  | _ => .str "Usuário desconhecido"

/-- The per-message body of extract_chat_attachments_info; base is the
number of rows already accumulated for earlier messages (it only feeds the
url_ counter). -/
def catalog_message (msg : JVal) (base : Nat) : Except PyExc (List Row) := do
  let civ ← jgetD msg "chatInfo" (.obj [])
  let _cdisp ← format_chat_info civ
  let mid ← jgetD msg "id" (.str "")
  let md ← jgetD msg "createdDateTime" (.str "")
  let fromv ← jget msg "from"
  let fu := catalogFromUser fromv
  let attsv ← jgetD msg "attachments" (.arr [])
  let atts ← asArr attsv
  let rows1 ← structuredRows mid md fu 0 atts
  let bodyv ← jgetD msg "body" (.obj [])
  let contentv ← jgetD bodyv "content" (.str "")
  if truthy contentv then
    match contentv with
    | .str s =>
      let rows2 := hostedRowsOf mid md fu s
      let rows3 := urlRowsFrom mid md fu (base + rows1.length + rows2.length)
        (heuristicFileUrls s)
      .ok (rows1 ++ rows2 ++ rows3)
    | _ => .error .raised
  else .ok rows1

/-! Shared lemmas. -/

theorem strOf_toList (cs : List Char) : (strOf cs).toList = cs := rfl

theorem strOf_length (cs : List Char) : (strOf cs).length = cs.length := rfl

theorem splitext_append (p : List Char) : (splitext p).1 ++ (splitext p).2 = p := by
  unfold splitext
  cases hd : lastIdxOf '.' p with
  | none => simp
  | some d =>
    simp only
    split
    · split
      · simp [List.take_append_drop]
      · simp
    · simp

theorem sanitizeChars_length (p : List Char) : (sanitizeChars p).length = p.length := by
  simp [sanitizeChars]

/-! C7. The claim: sanitize_filename replaces the nine invalid characters
by underscores, and every 250-character name with an extension sanitizes to
at most 200 characters ending in the original extension, via truncation to
190 characters plus the extension. The truncation keeps the whole
extension, so an extension longer than 10 characters drives the result
past 200; the claim is corrected to bound the extension. -/

/-- C7 counterexample: a 250-character name whose extension has 31
characters sanitizes to 221 characters, refuting the claimed 200-character
bound for arbitrary names with an extension. -/
theorem C7_length_counterexample :
    (strOf (List.replicate 219 'a' ++ '.' :: List.replicate 30 'b')).length = 250 ∧
    (splitext (sanitizeChars (List.replicate 219 'a' ++ '.' :: List.replicate 30 'b'))).2 ≠ [] ∧
    200 < (sanitize_filename (strOf (List.replicate 219 'a' ++ '.' :: List.replicate 30 'b'))).length := by
  refine ⟨rfl, ?_, ?_⟩ <;> decide

/-- C7 as amended: sanitize_filename replaces each invalid character by an
underscore (it is exactly that character map before truncation), and a
250-character input whose sanitized form has a nonempty extension of at
most 10 characters truncates to the first 190 characters of the stem plus
the extension, hence at most 200 characters, ending in that extension. -/
theorem C7_sanitize_truncation :
    (∀ s : String, sanitizeChars s.toList =
      s.toList.map (fun c => if invalidChar c then '_' else c)) ∧
    ∀ (s : String) (stem ext : List Char),
      s.toList.length = 250 →
      splitext (sanitizeChars s.toList) = (stem, ext) →
      ext ≠ [] → ext.length ≤ 10 →
      (sanitize_filename s).toList = stem.take 190 ++ ext ∧
      (sanitize_filename s).length ≤ 200 ∧
      ∃ pre, (sanitize_filename s).toList = pre ++ ext := by
  refine ⟨fun s => rfl, fun s stem ext hlen hsp hne hext => ?_⟩
  have hSan : (sanitizeChars s.toList).length = 250 := by
    rw [sanitizeChars_length, hlen]
  have happ : stem ++ ext = sanitizeChars s.toList := by
    have h := splitext_append (sanitizeChars s.toList)
    rw [hsp] at h; exact h
  have hstem : stem.length + ext.length = 250 := by
    have h := congrArg List.length happ
    rw [List.length_append] at h
    omega
  have h200 : 200 < (sanitizeChars s.toList).length := by omega
  have hval : sanitize_filename s = strOf (stem.take 190 ++ ext) := by
    unfold sanitize_filename
    rw [if_pos h200, hsp]
  have htake : (stem.take 190).length = 190 := by
    rw [List.length_take]; omega
  refine ⟨by rw [hval]; rfl, ?_, ⟨stem.take 190, by rw [hval]; rfl⟩⟩
  rw [hval, strOf_length, List.length_append, htake]; omega

/-- C7 witness: a 250-character name with the 4-character extension .pdf
truncates to 194 characters ending in .pdf. -/
theorem C7_sanitize_truncation_witness :
    (sanitize_filename (strOf (List.replicate 246 'a' ++ ".pdf".toList))).toList =
      (List.replicate 246 'a').take 190 ++ ".pdf".toList ∧
    (sanitize_filename (strOf (List.replicate 246 'a' ++ ".pdf".toList))).length ≤ 200 ∧
    ∃ pre, (sanitize_filename (strOf (List.replicate 246 'a' ++ ".pdf".toList))).toList =
      pre ++ ".pdf".toList :=
  C7_sanitize_truncation.2 (strOf (List.replicate 246 'a' ++ ".pdf".toList))
    (List.replicate 246 'a') ".pdf".toList (by decide) (by decide) (by decide) (by decide)

/-! Request-engine lemmas shared by several claims. -/

/-- A response whose status neither matches the handled codes nor raises in
raise_for_status, with a parsable body, is returned as the payload. -/
theorem make_request_pass (rf : Nat) (url : String) (params : Option QueryParams)
    (st : ReqState) (s : Nat) (ra : Option Nat) (p : JVal) (rest : List HttpResult)
    (htr : st.transport = .resp s ra (some p) :: rest)
    (h429 : s ≠ 429) (h401 : s ≠ 401) (hok : ¬(400 ≤ s ∧ s < 600)) :
    make_request (rf + 1) url params st =
      (some p, { st with transport := rest }, [.request url params st.headers]) := by
  unfold make_request
  rw [htr]
  simp [h429, h401, hok]

/-- A status in [400, 600) other than 429 and 401 raises in
raise_for_status and surfaces as None. -/
theorem make_request_fail (rf : Nat) (url : String) (params : Option QueryParams)
    (st : ReqState) (s : Nat) (ra : Option Nat) (pl : Option JVal) (rest : List HttpResult)
    (htr : st.transport = .resp s ra pl :: rest)
    (h400 : 400 ≤ s) (h600 : s < 600) (h429 : s ≠ 429) (h401 : s ≠ 401) :
    make_request (rf + 1) url params st =
      (none, { st with transport := rest }, [.request url params st.headers]) := by
  unfold make_request
  rw [htr]
  simp [h429, h401, h400, h600]

/-- A transport-level exception surfaces as None. -/
theorem make_request_netErr (rf : Nat) (url : String) (params : Option QueryParams)
    (st : ReqState) (rest : List HttpResult) (htr : st.transport = .netErr :: rest) :
    make_request (rf + 1) url params st =
      (none, { st with transport := rest }, [.request url params st.headers]) := by
  unfold make_request
  rw [htr]

/-! C2. Rate-limit handling of make_request: every 429 sleeps for the
Retry-After header (60 seconds when absent) and re-issues the identical
request; a run of 429s followed by a 200 for the same URL ends with the 200
payload and never surfaces the 429. -/

/-- The expected trace of a run of rate-limited attempts: each request is
identical (same URL, same params, same auth header), each is followed by a
sleep of its Retry-After (in milliseconds; 60 s when the header is absent),
and one final identical request closes the run. -/
def retryEvs (url : String) (params : Option QueryParams) (h : Nat) :
    List (Option Nat) → List Event
  | [] => [Event.request url params h]
  | ra :: rest =>
    Event.request url params h :: Event.sleep (1000 * ra.getD 60) :: retryEvs url params h rest

/-- C2: for every sequence of 429 responses followed by a 200, make_request
sleeps the Retry-After of each 429 (default 60 s), re-issues the identical
request each time, and returns the 200 payload, never the 429. -/
theorem C2_rate_limit_retry (url : String) (params : Option QueryParams)
    (rs : List (Option Nat × Option JVal)) (payload : JVal) (rest : List HttpResult) :
    ∀ (st : ReqState) (fuel : Nat),
    st.transport = rs.map (fun q => HttpResult.resp 429 q.1 q.2) ++
      HttpResult.resp 200 none (some payload) :: rest →
    rs.length + 1 ≤ fuel →
    make_request fuel url params st =
      (some payload, { st with transport := rest },
       retryEvs url params st.headers (rs.map Prod.fst)) := by
  induction rs with
  | nil =>
    intro st fuel htr hfuel
    obtain ⟨f, rfl⟩ : ∃ f, fuel = f + 1 := ⟨fuel - 1, by omega⟩
    simp only [List.map_nil, List.nil_append] at htr
    rw [make_request_pass f url params st 200 none payload rest htr
      (by decide) (by decide) (by decide)]
    rfl
  | cons q rs ih =>
    intro st fuel htr hfuel
    obtain ⟨f, rfl⟩ : ∃ f, fuel = f + 1 := ⟨fuel - 1, by omega⟩
    have hf : rs.length + 1 ≤ f := by simp at hfuel; omega
    have hih := ih ⟨rs.map (fun q => HttpResult.resp 429 q.1 q.2) ++
        HttpResult.resp 200 none (some payload) :: rest,
        st.token, st.nextToken, st.headers⟩ f rfl hf
    unfold make_request
    rw [htr]
    simp only [List.map_cons, List.cons_append]
    simp only at hih
    simp [hih, retryEvs]

/-- C2 witness: one 429 with Retry-After 7, then a 200: the run sleeps
7000 ms, repeats the identical request, and yields the 200 payload. -/
theorem C2_rate_limit_retry_witness :
    make_request 2 "https://graph.microsoft.com/v1.0/me/chats" (some chatsParams)
      ⟨[.resp 429 (some 7) none, .resp 200 none (some (.str "OK"))], some 5, 9, 5⟩ =
      (some (.str "OK"), ⟨[], some 5, 9, 5⟩,
       retryEvs "https://graph.microsoft.com/v1.0/me/chats" (some chatsParams) 5 [some 7]) :=
  C2_rate_limit_retry "https://graph.microsoft.com/v1.0/me/chats" (some chatsParams)
    [(some 7, none)] (.str "OK") [] ⟨_, some 5, 9, 5⟩ 2 rfl (by decide)

/-! C3. Authentication refresh of make_request: a 401 clears the cached
token (exactly one invalidation), mints a fresh token through the token
provider, rebuilds the auth header, and re-issues the identical request
carrying the new header. -/

/-- C3: a 401 followed by a 200 produces exactly the trace request,
invalidate, refresh, request, where the retried request is identical in URL
and params and carries the freshly minted token as its auth header; the
final state caches that token and the 200 payload is returned. -/
theorem C3_auth_refresh (url : String) (params : Option QueryParams) (st : ReqState)
    (ra : Option Nat) (pl : Option JVal) (payload : JVal) (rest : List HttpResult)
    (fuel : Nat)
    (htr : st.transport = HttpResult.resp 401 ra pl ::
      HttpResult.resp 200 none (some payload) :: rest)
    (hfuel : 2 ≤ fuel) :
    make_request fuel url params st =
      (some payload,
       { transport := rest, token := some st.nextToken, nextToken := st.nextToken + 1,
         headers := st.nextToken },
       [.request url params st.headers, .invalidate, .refresh st.nextToken,
        .request url params st.nextToken]) := by
  obtain ⟨f, rfl⟩ : ∃ f, fuel = f + 2 := ⟨fuel - 2, by omega⟩
  unfold make_request
  rw [htr]
  simp only [get_access_token]
  have h := make_request_pass f url params
    { transport := HttpResult.resp 200 none (some payload) :: rest, token := some st.nextToken,
      nextToken := st.nextToken + 1, headers := st.nextToken }
    200 none payload rest rfl (by decide) (by decide) (by decide)
  simp only at h
  simp [h]

/-- C3 witness: with cached token 5 and mint counter 9, the 401-then-200
run invalidates once, refreshes to token 9, and retries with header 9. -/
theorem C3_auth_refresh_witness :
    make_request 2 "https://graph.microsoft.com/v1.0/me" none
      ⟨[.resp 401 none none, .resp 200 none (some (.str "OK"))], some 5, 9, 5⟩ =
      (some (.str "OK"), ⟨[], some 9, 10, 9⟩,
       [.request "https://graph.microsoft.com/v1.0/me" none 5, .invalidate, .refresh 9,
        .request "https://graph.microsoft.com/v1.0/me" none 9]) :=
  C3_auth_refresh "https://graph.microsoft.com/v1.0/me" none
    ⟨_, some 5, 9, 5⟩ none none (.str "OK") [] 2 rfl (by decide)

/-! Pagination machinery: a scripted chain of pages, each served as a 200
response whose payload carries the value array and, except for the last
page, the nextLink of its successor. -/

structure PageSpec where
  url : String
  value : List JVal
  nextLink : Option String

/-- The JSON rendering of a nextLink field value. -/
def nlToJVal : Option String → JVal
  | some u => .str u
  | none => .null

/-- The JSON payload of one scripted page. -/
def mkPage (p : PageSpec) : JVal :=
  .obj (("value", .arr p.value) ::
    (match p.nextLink with
     | some u => [("@odata.nextLink", .str u)]
     | none => []))

def okResp (p : PageSpec) : HttpResult := .resp 200 none (some (mkPage p))

/-- The traversal invariant: starting from the pending URL cur, the chain's
pages are visited in order (each page is served at its own nonempty URL and
names its successor in its nextLink), and after the last page the pending
URL is fin. -/
def PageChainFrom : Option String → List PageSpec → Option String → Prop
  | cur, [], fin => cur = fin
  | cur, p :: rest, fin => cur = some p.url ∧ p.url ≠ "" ∧ PageChainFrom p.nextLink rest fin

/-- Every URL fin may point at is nonempty (vacuous for none). -/
def FinOk : Option String → Prop
  | none => True
  | some v => v ≠ ""

/-- The request trace of a chain traversal: the first request carries the
query params, every continuation carries none, all carry the same auth
header. -/
def reqEvs (h : Nat) : Option QueryParams → List PageSpec → List Event
  | _, [] => []
  | params, p :: rest => Event.request p.url params h :: reqEvs h none rest

theorem truthy_mkPage (p : PageSpec) : truthy (mkPage p) = true := by
  obtain ⟨u, v, nl⟩ := p
  cases nl <;> rfl

theorem jgetD_mkPage_value (p : PageSpec) (d : JVal) :
    jgetD (mkPage p) "value" d = .ok (.arr p.value) := by
  obtain ⟨u, v, nl⟩ := p
  cases nl <;> rfl

theorem jget_mkPage_next (p : PageSpec) :
    jget (mkPage p) "@odata.nextLink" = .ok (nlToJVal p.nextLink) := by
  obtain ⟨u, v, nl⟩ := p
  cases nl <;> rfl

theorem nextUrlOf_of_chain (nl : Option String) (hnl : FinOk nl) :
    nextUrlOf (nlToJVal nl) = .ok nl := by
  cases nl with
  | none => rfl
  | some u =>
    have hu : u ≠ "" := hnl
    simp [nextUrlOf, nlToJVal, hu]

/-- One successful loop step of get_my_chats_loop over a scripted page. -/
theorem get_my_chats_loop_step (rf lf : Nat) (p : PageSpec) (params : Option QueryParams)
    (st : ReqState) (extra : List HttpResult)
    (htr : st.transport = okResp p :: extra) (hrf : 1 ≤ rf) (hnl : FinOk p.nextLink) :
    get_my_chats_loop rf (lf + 1) (some p.url) params st =
      (get_my_chats_loop rf lf p.nextLink none
          ⟨extra, st.token, st.nextToken, st.headers⟩).map
        (fun r => (p.value ++ r.1, r.2.1,
          Event.request p.url params st.headers :: r.2.2)) := by
  obtain ⟨f, rfl⟩ : ∃ f, rf = f + 1 := ⟨rf - 1, by omega⟩
  have hmr := make_request_pass f p.url params st 200 none (mkPage p) extra htr
    (by decide) (by decide) (by decide)
  cases hrec : get_my_chats_loop (f + 1) lf p.nextLink none
      ⟨extra, st.token, st.nextToken, st.headers⟩ with
  | error e =>
    simp only [get_my_chats_loop]
    rw [hmr]
    simp [truthy_mkPage, jgetD_mkPage_value, jget_mkPage_next,
      nextUrlOf_of_chain p.nextLink hnl, Bind.bind, Except.bind, asArr, hrec, Except.map]
  | ok r =>
    simp only [get_my_chats_loop]
    rw [hmr]
    simp [truthy_mkPage, jgetD_mkPage_value, jget_mkPage_next,
      nextUrlOf_of_chain p.nextLink hnl, Bind.bind, Except.bind, asArr, hrec, Except.map]

/-- Traversing a scripted chain: the loop yields the concatenation of the
pages' value arrays in order, one request per page with params only on the
first, and then continues at fin over the remaining transport. -/
theorem get_my_chats_loop_chain (chain : List PageSpec) :
    ∀ (u : String) (params : Option QueryParams) (st : ReqState) (fin : Option String)
      (rf lf : Nat) (extra : List HttpResult),
    PageChainFrom (some u) chain fin → FinOk fin →
    st.transport = chain.map okResp ++ extra →
    1 ≤ rf → chain ≠ [] →
    get_my_chats_loop rf (lf + chain.length) (some u) params st =
      (get_my_chats_loop rf lf fin none ⟨extra, st.token, st.nextToken, st.headers⟩).map
        (fun r => ((chain.map PageSpec.value).flatten ++ r.1, r.2.1,
          reqEvs st.headers params chain ++ r.2.2)) := by
  induction chain with
  | nil => intro _ _ _ _ _ _ _ _ _ _ _ hne; exact absurd rfl hne
  | cons p rest ih =>
    intro u params st fin rf lf extra hchain hfin htr hrf _
    obtain ⟨hu, hne, hchain'⟩ := hchain
    obtain rfl : u = p.url := by injection hu with h
    cases rest with
    | nil =>
      have hfin' : p.nextLink = fin := hchain'
      subst hfin'
      have := get_my_chats_loop_step rf lf p params st extra (by simpa using htr) hrf hfin
      simpa [reqEvs] using this
    | cons q rest' =>
      obtain ⟨hq, hq2, hch⟩ := hchain'
      have hnl : FinOk p.nextLink := by rw [hq]; exact hq2
      have hstep := get_my_chats_loop_step rf (lf + (q :: rest').length) p params st
        (List.map okResp (q :: rest') ++ extra) (by simpa using htr) hrf hnl
      have hrec := ih q.url none ⟨List.map okResp (q :: rest') ++ extra,
        st.token, st.nextToken, st.headers⟩ fin rf lf extra ⟨rfl, hq2, hch⟩ hfin rfl hrf
        (by simp)
      rw [hq] at hstep
      have hlen : lf + (p :: q :: rest').length = (lf + (q :: rest').length) + 1 := by
        simp; omega
      rw [hlen, hstep, hrec]
      cases hfinal : get_my_chats_loop rf lf fin none
          ⟨extra, st.token, st.nextToken, st.headers⟩ with
      | error e => simp [Except.map, hfinal]
      | ok r => simp [Except.map, hfinal, reqEvs]

theorem tagMsg_obj (ci m : JVal) (h : isObj m = true) : tagMsg ci m = .ok (tagTotal ci m) := by
  cases m <;> simp_all [isObj, tagMsg, setItem, tagTotal, Bind.bind, Except.bind]

theorem tagAll_obj (ci : JVal) (l : List JVal) (h : ∀ v ∈ l, isObj v = true) :
    tagAll ci l = .ok (l.map (tagTotal ci)) := by
  induction l with
  | nil => rfl
  | cons m rest ih =>
    have hm := h m (by simp)
    have hr := ih (fun v hv => h v (by simp [hv]))
    simp [tagAll, tagMsg_obj ci m hm, hr, Bind.bind, Except.bind]

/-- The full event trace of a message-chain traversal: one request per page
(params only on the first), followed by the 100 ms pacing sleep whenever
the accumulated message count is positive after the page. -/
def msgEvs (h : Nat) : Option QueryParams → Nat → List PageSpec → List Event
  | _, _, [] => []
  | params, accLen, p :: rest =>
    Event.request p.url params h ::
      ((if 0 < accLen + p.value.length then [Event.sleep 100] else []) ++
        msgEvs h none (accLen + p.value.length) rest)

/-- Projecting the message-loop trace to its requests recovers the chat-loop
trace shape: the pacing sleeps are the only difference. -/
theorem msgEvs_filter (h : Nat) (chain : List PageSpec) :
    ∀ (params : Option QueryParams) (accLen : Nat),
    (msgEvs h params accLen chain).filter isReqEv = reqEvs h params chain := by
  induction chain with
  | nil => intro params accLen; rfl
  | cons p rest ih =>
    intro params accLen
    by_cases hc : 0 < accLen + p.value.length <;>
      simp [msgEvs, reqEvs, hc, isReqEv, ih]

/-- One successful loop step of get_messages_loop over a scripted page. -/
theorem get_messages_loop_step (rf lf : Nat) (ci : JVal) (p : PageSpec)
    (params : Option QueryParams) (st : ReqState) (extra : List HttpResult) (acc : List JVal)
    (htr : st.transport = okResp p :: extra) (hrf : 1 ≤ rf) (hnl : FinOk p.nextLink)
    (hobj : ∀ v ∈ p.value, isObj v = true) :
    get_messages_loop rf ci (lf + 1) (some p.url) params st acc =
      (get_messages_loop rf ci lf p.nextLink none ⟨extra, st.token, st.nextToken, st.headers⟩
          (acc ++ p.value.map (tagTotal ci))).map
        (fun r => (r.1, r.2.1,
          Event.request p.url params st.headers ::
            ((if 0 < acc.length + p.value.length then [Event.sleep 100] else []) ++ r.2.2))) := by
  obtain ⟨f, rfl⟩ : ∃ f, rf = f + 1 := ⟨rf - 1, by omega⟩
  have hmr := make_request_pass f p.url params st 200 none (mkPage p) extra htr
    (by decide) (by decide) (by decide)
  have htag := tagAll_obj ci p.value hobj
  cases hrec : get_messages_loop (f + 1) ci lf p.nextLink none
      ⟨extra, st.token, st.nextToken, st.headers⟩ (acc ++ p.value.map (tagTotal ci)) with
  | error e =>
    simp only [get_messages_loop]
    rw [hmr]
    simp [truthy_mkPage, jgetD_mkPage_value, jget_mkPage_next,
      nextUrlOf_of_chain p.nextLink hnl, Bind.bind, Except.bind, asArr, htag, hrec, Except.map]
  | ok r =>
    simp only [get_messages_loop]
    rw [hmr]
    simp [truthy_mkPage, jgetD_mkPage_value, jget_mkPage_next,
      nextUrlOf_of_chain p.nextLink hnl, Bind.bind, Except.bind, asArr, htag, hrec, Except.map]

/-- Traversing a scripted chain of message pages. -/
theorem get_messages_loop_chain (chain : List PageSpec) :
    ∀ (u : String) (params : Option QueryParams) (st : ReqState) (fin : Option String)
      (rf lf : Nat) (extra : List HttpResult) (ci : JVal) (acc : List JVal),
    PageChainFrom (some u) chain fin → FinOk fin →
    (∀ p ∈ chain, ∀ v ∈ p.value, isObj v = true) →
    st.transport = chain.map okResp ++ extra →
    1 ≤ rf → chain ≠ [] →
    get_messages_loop rf ci (lf + chain.length) (some u) params st acc =
      (get_messages_loop rf ci lf fin none ⟨extra, st.token, st.nextToken, st.headers⟩
          (acc ++ (chain.map (fun p => p.value.map (tagTotal ci))).flatten)).map
        (fun r => (r.1, r.2.1, msgEvs st.headers params acc.length chain ++ r.2.2)) := by
  induction chain with
  | nil => intro _ _ _ _ _ _ _ _ _ _ _ _ _ _ hne; exact absurd rfl hne
  | cons p rest ih =>
    intro u params st fin rf lf extra ci acc hchain hfin hobj htr hrf _
    obtain ⟨hu, hne, hchain'⟩ := hchain
    obtain rfl : u = p.url := by injection hu with h
    have hobjp : ∀ v ∈ p.value, isObj v = true := hobj p (by simp)
    cases rest with
    | nil =>
      have hfin' : p.nextLink = fin := hchain'
      subst hfin'
      have := get_messages_loop_step rf lf ci p params st extra acc
        (by simpa using htr) hrf hfin hobjp
      simpa [msgEvs] using this
    | cons q rest' =>
      obtain ⟨hq, hq2, hch⟩ := hchain'
      have hnl : FinOk p.nextLink := by rw [hq]; exact hq2
      have hstep := get_messages_loop_step rf (lf + (q :: rest').length) ci p params st
        (List.map okResp (q :: rest') ++ extra) acc (by simpa using htr) hrf hnl hobjp
      have hrec := ih q.url none ⟨List.map okResp (q :: rest') ++ extra,
        st.token, st.nextToken, st.headers⟩ fin rf lf extra ci
        (acc ++ p.value.map (tagTotal ci)) ⟨rfl, hq2, hch⟩ hfin
        (fun r hr => hobj r (by simp [hr])) rfl hrf (by simp)
      rw [hq] at hstep
      have hlen : lf + (p :: q :: rest').length = (lf + (q :: rest').length) + 1 := by
        simp; omega
      have hacc : (acc ++ p.value.map (tagTotal ci)) ++
          ((q :: rest').map (fun p => p.value.map (tagTotal ci))).flatten =
          acc ++ ((p :: q :: rest').map (fun p => p.value.map (tagTotal ci))).flatten := by
        simp [List.append_assoc]
      rw [hlen, hstep, hrec, hacc]
      cases hfinal : get_messages_loop rf ci lf fin none
          ⟨extra, st.token, st.nextToken, st.headers⟩
          (acc ++ ((p :: q :: rest').map (fun p => p.value.map (tagTotal ci))).flatten) with
      | error e => simp [Except.map]
      | ok r => simp [Except.map, msgEvs]

/-- Once the pending URL is exhausted, either loop stops at once. -/
theorem get_my_chats_loop_none (rf k : Nat) (st : ReqState) :
    get_my_chats_loop rf (k + 1) none none st = .ok ([], st, []) := rfl

theorem get_messages_loop_none (rf k : Nat) (ci : JVal) (st : ReqState) (acc : List JVal) :
    get_messages_loop rf ci (k + 1) none none st acc = .ok (acc, st, []) := rfl

/-! C1. Both paginated traversals concatenate the value arrays of the
successive pages in original order; each page is requested exactly once,
the next URL always taken from the prior page's odata nextLink until it is
absent; the query parameters ride only on the first request, every
continuation request carries none. -/

/-- C1: over any scripted page chain served as 200 responses, get_my_chats
returns exactly the concatenation of the chain's value arrays and issues
exactly one request per page, the first with the chats params and all
continuations with none, each continuation's URL being the prior page's
nextLink; get_messages_from_chat does the same over its chain (with the
per-message tagging applied pagewise), its request trace, recovered by
filtering out the pacing sleeps, having the same shape. -/
theorem C1_pagination :
    (∀ (st : ReqState) (chain : List PageSpec) (rf lf : Nat),
      PageChainFrom (some (config_GRAPH_ENDPOINT ++ "/me/chats")) chain none →
      chain ≠ [] →
      st.transport = chain.map okResp →
      1 ≤ rf → chain.length + 1 ≤ lf →
      get_my_chats rf lf st =
        .ok ((chain.map PageSpec.value).flatten,
             ⟨[], st.token, st.nextToken, st.headers⟩,
             reqEvs st.headers (some chatsParams) chain))
    ∧
    (∀ (st : ReqState) (chain : List PageSpec) (rf lf : Nat) (cid : String) (ci : JVal),
      PageChainFrom (some (config_GRAPH_ENDPOINT ++ "/me/chats/" ++ cid ++ "/messages"))
        chain none →
      chain ≠ [] →
      (∀ p ∈ chain, ∀ v ∈ p.value, isObj v = true) →
      st.transport = chain.map okResp →
      1 ≤ rf → chain.length + 1 ≤ lf →
      get_messages_from_chat rf lf cid ci st =
        .ok ((chain.map (fun p => p.value.map (tagTotal ci))).flatten,
             ⟨[], st.token, st.nextToken, st.headers⟩,
             msgEvs st.headers (some messagesParams) 0 chain) ∧
      (msgEvs st.headers (some messagesParams) 0 chain).filter isReqEv =
        reqEvs st.headers (some messagesParams) chain) := by
  constructor
  · intro st chain rf lf hchain hne htr hrf hlf
    obtain ⟨lf0, rfl⟩ : ∃ lf0, lf = lf0 + chain.length := ⟨lf - chain.length, by omega⟩
    obtain ⟨k, rfl⟩ : ∃ k, lf0 = k + 1 := ⟨lf0 - 1, by omega⟩
    unfold get_my_chats
    rw [get_my_chats_loop_chain chain _ (some chatsParams) st none rf (k + 1) []
      hchain trivial (by simpa using htr) hrf hne]
    rw [get_my_chats_loop_none rf k ⟨[], st.token, st.nextToken, st.headers⟩]
    simp [Except.map]
  · intro st chain rf lf cid ci hchain hne hobj htr hrf hlf
    obtain ⟨lf0, rfl⟩ : ∃ lf0, lf = lf0 + chain.length := ⟨lf - chain.length, by omega⟩
    obtain ⟨k, rfl⟩ : ∃ k, lf0 = k + 1 := ⟨lf0 - 1, by omega⟩
    refine ⟨?_, msgEvs_filter st.headers chain (some messagesParams) 0⟩
    unfold get_messages_from_chat
    rw [get_messages_loop_chain chain _ (some messagesParams) st none rf (k + 1) [] ci []
      hchain trivial hobj (by simpa using htr) hrf hne]
    rw [show ([] : List JVal) ++ (chain.map (fun p => p.value.map (tagTotal ci))).flatten =
      (chain.map (fun p => p.value.map (tagTotal ci))).flatten from by simp]
    rw [get_messages_loop_none rf k ci ⟨[], st.token, st.nextToken, st.headers⟩ _]
    simp [Except.map]

/-- C1 witness: a two-page chat listing and a two-page message listing,
both concatenating in order, with the expected request traces. -/
theorem C1_pagination_witness :
    get_my_chats 1 3
      ⟨[okResp ⟨"https://graph.microsoft.com/v1.0/me/chats", [.str "c1", .str "c2"], some "P2"⟩,
        okResp ⟨"P2", [.str "c3"], none⟩], some 5, 9, 5⟩ =
      .ok (([⟨"https://graph.microsoft.com/v1.0/me/chats", [.str "c1", .str "c2"], some "P2"⟩,
             (⟨"P2", [.str "c3"], none⟩ : PageSpec)].map PageSpec.value).flatten,
           ⟨[], some 5, 9, 5⟩,
           reqEvs 5 (some chatsParams)
             [⟨"https://graph.microsoft.com/v1.0/me/chats", [.str "c1", .str "c2"], some "P2"⟩,
              ⟨"P2", [.str "c3"], none⟩]) ∧
    (get_messages_from_chat 1 3 "CH" (.str "ci")
      ⟨[okResp ⟨"https://graph.microsoft.com/v1.0/me/chats/CH/messages",
          [.obj [("id", .str "m1")]], some "M2"⟩,
        okResp ⟨"M2", [.obj [("id", .str "m2")]], none⟩], some 5, 9, 5⟩ =
      .ok (([⟨"https://graph.microsoft.com/v1.0/me/chats/CH/messages",
              [.obj [("id", .str "m1")]], some "M2"⟩,
             (⟨"M2", [.obj [("id", .str "m2")]], none⟩ : PageSpec)].map
              (fun p => p.value.map (tagTotal (.str "ci")))).flatten,
           ⟨[], some 5, 9, 5⟩,
           msgEvs 5 (some messagesParams) 0
             [⟨"https://graph.microsoft.com/v1.0/me/chats/CH/messages",
                [.obj [("id", .str "m1")]], some "M2"⟩,
              ⟨"M2", [.obj [("id", .str "m2")]], none⟩]) ∧
      (msgEvs 5 (some messagesParams) 0
          [⟨"https://graph.microsoft.com/v1.0/me/chats/CH/messages",
             [.obj [("id", .str "m1")]], some "M2"⟩,
           (⟨"M2", [.obj [("id", .str "m2")]], none⟩ : PageSpec)]).filter isReqEv =
        reqEvs 5 (some messagesParams)
          [⟨"https://graph.microsoft.com/v1.0/me/chats/CH/messages",
             [.obj [("id", .str "m1")]], some "M2"⟩,
           ⟨"M2", [.obj [("id", .str "m2")]], none⟩]) :=
  ⟨C1_pagination.1 ⟨_, some 5, 9, 5⟩
      [⟨"https://graph.microsoft.com/v1.0/me/chats", [.str "c1", .str "c2"], some "P2"⟩,
       ⟨"P2", [.str "c3"], none⟩] 1 3
      (by exact ⟨rfl, by decide, rfl, by decide, rfl⟩) (List.cons_ne_nil _ _) rfl (by decide)
      (by decide),
   C1_pagination.2 ⟨_, some 5, 9, 5⟩
      [⟨"https://graph.microsoft.com/v1.0/me/chats/CH/messages",
         [.obj [("id", .str "m1")]], some "M2"⟩,
       ⟨"M2", [.obj [("id", .str "m2")]], none⟩] 1 3 "CH" (.str "ci")
      (by exact ⟨rfl, by decide, rfl, by decide, rfl⟩) (List.cons_ne_nil _ _)
      (by intro p hp v hv; fin_cases hp <;> simp_all [isObj]) rfl (by decide) (by decide)⟩

/-! C4. The claim says every non-2xx status other than 429 and 401 yields a
failure outcome. The code's raise_for_status only raises for statuses in
[400, 600): a 300 response (non-2xx, not 429, not 401) sails through and
its JSON body is returned as a success. The claim is corrected to the
[400, 600) range; the termination and prefix-preservation parts hold. -/

/-- C4 counterexample: a single 300 response, a non-2xx status different
from 429 and 401, is returned as a success payload by make_request, not as
a failure outcome. -/
theorem C4_non2xx_counterexample :
    (make_request 1 "https://graph.microsoft.com/v1.0/me/chats" none
        ⟨[.resp 300 none (some (.num 7))], some 0, 1, 0⟩).1 = some (.num 7) ∧
    ¬(200 ≤ 300 ∧ 300 < 300) ∧ (300 : Nat) ≠ 429 ∧ (300 : Nat) ≠ 401 := by
  exact ⟨rfl, by decide, by decide, by decide⟩

/-- C4 as amended: a response whose status lies in [400, 600), other than
429 and 401, or a transport-level failure, makes make_request return the
failure outcome None after that one request (no fabricated page); and a
paginated traversal hitting such a failure after a chain of good pages
returns exactly the pages fetched so far, unchanged and in order, the
enumeration stopping at the failed request. -/
theorem C4_failure_termination :
    (∀ (url : String) (params : Option QueryParams) (st : ReqState) (s : Nat)
       (ra : Option Nat) (pl : Option JVal) (rest : List HttpResult) (rf : Nat),
      st.transport = .resp s ra pl :: rest → 400 ≤ s → s < 600 → s ≠ 429 → s ≠ 401 →
      make_request (rf + 1) url params st =
        (none, { st with transport := rest }, [.request url params st.headers]))
    ∧
    (∀ (url : String) (params : Option QueryParams) (st : ReqState)
       (rest : List HttpResult) (rf : Nat),
      st.transport = HttpResult.netErr :: rest →
      make_request (rf + 1) url params st =
        (none, { st with transport := rest }, [.request url params st.headers]))
    ∧
    (∀ (st : ReqState) (chain : List PageSpec) (badr : HttpResult) (ubad : String)
       (rf lf : Nat),
      PageChainFrom (some (config_GRAPH_ENDPOINT ++ "/me/chats")) chain (some ubad) →
      ubad ≠ "" → chain ≠ [] →
      (badr = .netErr ∨
        ∃ s ra pl, badr = .resp s ra pl ∧ 400 ≤ s ∧ s < 600 ∧ s ≠ 429 ∧ s ≠ 401) →
      st.transport = chain.map okResp ++ [badr] →
      1 ≤ rf → chain.length + 1 ≤ lf →
      get_my_chats rf lf st =
        .ok ((chain.map PageSpec.value).flatten,
             ⟨[], st.token, st.nextToken, st.headers⟩,
             reqEvs st.headers (some chatsParams) chain ++
               [.request ubad none st.headers])) := by
  refine ⟨fun url params st s ra pl rest rf => make_request_fail rf url params st s ra pl rest,
    fun url params st rest rf => make_request_netErr rf url params st rest, ?_⟩
  intro st chain badr ubad rf lf hchain hbad hne hkind htr hrf hlf
  obtain ⟨lf0, rfl⟩ : ∃ lf0, lf = lf0 + chain.length := ⟨lf - chain.length, by omega⟩
  obtain ⟨k, rfl⟩ : ∃ k, lf0 = k + 1 := ⟨lf0 - 1, by omega⟩
  obtain ⟨f, rfl⟩ : ∃ f, rf = f + 1 := ⟨rf - 1, by omega⟩
  unfold get_my_chats
  rw [get_my_chats_loop_chain chain _ (some chatsParams) st (some ubad) (f + 1) (k + 1) [badr]
    hchain hbad htr (by omega) hne]
  have hfail : make_request (f + 1) ubad none
      ⟨[badr], st.token, st.nextToken, st.headers⟩ =
      (none, ⟨[], st.token, st.nextToken, st.headers⟩,
       [.request ubad none st.headers]) := by
    rcases hkind with h | ⟨s, ra, pl, h, h400, h600, h429, h401⟩
    · subst h
      exact make_request_netErr f ubad none _ [] rfl
    · subst h
      exact make_request_fail f ubad none _ s ra pl [] rfl h400 h600 h429 h401
  have hloop : get_my_chats_loop (f + 1) (k + 1) (some ubad) none
      ⟨[badr], st.token, st.nextToken, st.headers⟩ =
      .ok ([], ⟨[], st.token, st.nextToken, st.headers⟩,
        [.request ubad none st.headers]) := by
    simp only [get_my_chats_loop]
    rw [hfail]
  rw [hloop]
  simp [Except.map]

/-- C4 witness: one good page then an HTTP 500 keeps the first page's items
and stops after requesting the failing continuation; and a bare 503
response makes make_request fail. -/
theorem C4_failure_termination_witness :
    make_request 1 "u" none ⟨[.resp 503 none (some (.str "x"))], some 0, 1, 0⟩ =
      (none, ⟨[], some 0, 1, 0⟩, [.request "u" none 0]) ∧
    get_my_chats 1 2
      ⟨[okResp ⟨"https://graph.microsoft.com/v1.0/me/chats", [.str "c1"], some "P2"⟩,
        .resp 500 none none], some 5, 9, 5⟩ =
      .ok (([(⟨"https://graph.microsoft.com/v1.0/me/chats", [.str "c1"], some "P2"⟩ :
              PageSpec)].map PageSpec.value).flatten,
           ⟨[], some 5, 9, 5⟩,
           reqEvs 5 (some chatsParams)
             [⟨"https://graph.microsoft.com/v1.0/me/chats", [.str "c1"], some "P2"⟩] ++
             [.request "P2" none 5]) :=
  ⟨C4_failure_termination.1 "u" none ⟨_, some 0, 1, 0⟩ 503 none (some (.str "x")) [] 0 rfl
     (by decide) (by decide) (by decide) (by decide),
   C4_failure_termination.2.2 ⟨_, some 5, 9, 5⟩
     [⟨"https://graph.microsoft.com/v1.0/me/chats", [.str "c1"], some "P2"⟩]
     (.resp 500 none none) "P2" 1 2
     (by exact ⟨rfl, by decide, rfl⟩) (by decide) (List.cons_ne_nil _ _)
     (Or.inr ⟨500, none, none, rfl, by decide, by decide, by decide, by decide⟩)
     rfl (by decide) (by decide)⟩

/-! C8. Collision avoidance in download_file. -/

theorem freshLoop_fresh (fs : FileSys) (stem ext : List Char) :
    ∀ (fuel counter : Nat) (cur p : String),
    freshLoop fs stem ext fuel counter cur = some p → pathExists fs p = false := by
  intro fuel
  induction fuel with
  | zero =>
    intro counter cur p h
    unfold freshLoop at h
    by_cases hex : pathExists fs cur
    · simp [hex] at h
    · simp [hex] at h
      subst h
      simpa using hex
  | succ f ih =>
    intro counter cur p h
    unfold freshLoop at h
    by_cases hex : pathExists fs cur
    · rw [if_pos hex] at h
      exact ih (counter + 1) _ p h
    · rw [if_neg hex] at h
      injection h with h
      subst h
      simpa using hex

/-- C8: whenever a save succeeds, the written path did not previously exist
(no existing file is ever overwritten) and the filesystem afterward is the
old one plus exactly the new entry; and the concrete double save of
report.pdf into the same directory yields report.pdf then report_1.pdf,
both present afterward with their own byte streams. -/
theorem C8_collision_avoidance :
    (∀ (bytes : List Nat) (status : Nat) (filename dir : String) (fs : FileSys)
       (fuel : Nat) (p : String) (fs' : FileSys),
      download_file (some (status, bytes)) filename dir fs fuel = ((true, some p), fs') →
      pathExists fs p = false ∧ fs' = (p, bytes) :: fs)
    ∧
    (∀ b1 b2 : List Nat,
      download_file (some (200, b1)) "report.pdf" "attachments" [] 5 =
        ((true, some "attachments/report.pdf"), [("attachments/report.pdf", b1)]) ∧
      download_file (some (200, b2)) "report.pdf" "attachments"
          [("attachments/report.pdf", b1)] 5 =
        ((true, some "attachments/report_1.pdf"),
         [("attachments/report_1.pdf", b2), ("attachments/report.pdf", b1)])) := by
  constructor
  · intro bytes status filename dir fs fuel p fs' h
    simp only [download_file] at h
    by_cases hs : status = 200
    · rw [if_pos hs] at h
      cases hfl : freshLoop fs (splitext (joinPath dir (sanitize_filename filename)).toList).1
          (splitext (joinPath dir (sanitize_filename filename)).toList).2 fuel 1
          (joinPath dir (sanitize_filename filename)) with
      | none => rw [hfl] at h; simp at h
      | some q =>
        rw [hfl] at h
        rw [Prod.mk.injEq, Prod.mk.injEq] at h
        obtain ⟨⟨-, hqp⟩, hfs⟩ := h
        obtain rfl : q = p := by injection hqp
        exact ⟨freshLoop_fresh fs _ _ fuel 1 _ q hfl, hfs.symm⟩
    · rw [if_neg hs] at h
      simp at h
  · intro b1 b2
    exact ⟨rfl, rfl⟩

/-- C8 witness: the two concrete saves, and the freshness of the second
save's path against the filesystem holding the first. -/
theorem C8_collision_avoidance_witness :
    (download_file (some (200, [1, 2, 3])) "report.pdf" "attachments" [] 5 =
      ((true, some "attachments/report.pdf"), [("attachments/report.pdf", [1, 2, 3])]) ∧
     download_file (some (200, [9])) "report.pdf" "attachments"
        [("attachments/report.pdf", [1, 2, 3])] 5 =
      ((true, some "attachments/report_1.pdf"),
       [("attachments/report_1.pdf", [9]), ("attachments/report.pdf", [1, 2, 3])])) ∧
    (pathExists [("attachments/report.pdf", [1, 2, 3])] "attachments/report_1.pdf" = false ∧
     [("attachments/report_1.pdf", [9]), ("attachments/report.pdf", [1, 2, 3])] =
       ("attachments/report_1.pdf", [9]) :: [("attachments/report.pdf", [1, 2, 3])]) :=
  ⟨C8_collision_avoidance.2 [1, 2, 3] [9],
   C8_collision_avoidance.1 [9] 200 "report.pdf" "attachments"
     [("attachments/report.pdf", [1, 2, 3])] 5 "attachments/report_1.pdf"
     [("attachments/report_1.pdf", [9]), ("attachments/report.pdf", [1, 2, 3])] rfl⟩

/-! C6. Strategy order of process_sharepoint_attachment. The claim keys the
shares-API and me/drive strategies to the URL's host being the
document-library vendor; the code tests whether the URL contains the
substring "sharepoint.com" anywhere, so a URL with that substring in its
path but a different host still runs all three strategies. Corrected to the
substring condition; the fixed order and failure-swallowing parts hold. -/

/-- The applicable strategy URLs of a reference, in the fixed source order. -/
def strategiesOf (u : String) : List String :=
  if containsSub "sharepoint.com".toList u.toList then [sharesUrlOf u, u, driveUrlOf u]
  else [u]

/-- The prefix of a strategy list that a resolution run attempts: every
strategy up to and including the first success, or the whole list when none
succeeds. -/
def attemptsOf (dl : String → Bool) : List String → List String
  | [] => []
  | v :: rest => if dl v then [v] else v :: attemptsOf dl rest

theorem attemptsOf_all_fail (dl : String → Bool) :
    ∀ l : List String, l.any dl = false → attemptsOf dl l = l := by
  intro l
  induction l with
  | nil => intro _; rfl
  | cons v rest ih =>
    intro h
    simp only [List.any_cons, Bool.or_eq_false_iff] at h
    simp [attemptsOf, h.1, ih h.2]

/-- C6 counterexample: a URL whose host is files.example.com (not the
document-library vendor) but whose path contains sharepoint.com runs all
three strategies, shares-API first, refuting the claim that a reference
whose host is not the vendor attempts only the direct-URL strategy. -/
theorem C6_host_counterexample :
    urlparseNetloc "https://files.example.com/docs/sharepoint.com/report.pdf".toList =
      "files.example.com".toList ∧
    containsSub "sharepoint.com".toList "files.example.com".toList = false ∧
    process_sharepoint_attachment (fun _ => false)
        (.obj [("contentUrl",
          .str "https://files.example.com/docs/sharepoint.com/report.pdf")]) =
      .ok (false,
        [sharesUrlOf "https://files.example.com/docs/sharepoint.com/report.pdf",
         "https://files.example.com/docs/sharepoint.com/report.pdf",
         driveUrlOf "https://files.example.com/docs/sharepoint.com/report.pdf"]) := by
  exact ⟨by decide, by decide, rfl⟩

/-- C6 as amended: for every reference with a truthy string contentUrl, the
strategies are tried in a fixed order that never varies at runtime — when
the URL contains the substring sharepoint.com, first the shares-API URL
built from the base64-encoded raw URL with padding stripped, then the
direct URL, then the me/drive root-path URL; when it does not, only the
direct URL. Each strategy's failure is swallowed (the run returns
normally), the attempted URLs are exactly the strategies up to the first
success, and only exhaustion of all applicable strategies yields a failure
result. -/
theorem C6_strategy_order (dl : String → Bool) (fs : List (String × JVal)) (u : String)
    (hlk : jlookup "contentUrl" fs = some (.str u)) (hu : u ≠ "") :
    process_sharepoint_attachment dl (.obj fs) =
      .ok ((strategiesOf u).any dl, attemptsOf dl (strategiesOf u)) ∧
    ((strategiesOf u).any dl = false → attemptsOf dl (strategiesOf u) = strategiesOf u) := by
  refine ⟨?_, attemptsOf_all_fail dl (strategiesOf u)⟩
  have htr : truthy (.str u) = true := by simp [truthy, hu]
  have hpure : ∀ (C : Prop) (inst : Decidable C) (A B : List Char),
      (if C then (pure A : Except PyExc (List Char)) else pure B) = pure (if C then A else B) := by
    intro C inst A B
    split <;> rfl
  have hok : ∀ (C : Prop) (inst : Decidable C) (A B : List Char),
      (if C then (Except.ok A : Except PyExc (List Char)) else .ok B) =
        .ok (if C then A else B) := by
    intro C inst A B
    split <;> rfl
  by_cases hsp : containsSub "sharepoint.com".toList u.toList
  all_goals simp only [String.toList] at hsp
  all_goals rw [show strategiesOf u =
    (if containsSub "sharepoint.com".toList u.data then [sharesUrlOf u, u, driveUrlOf u]
     else [u]) from rfl]
  · by_cases d1 : dl (sharesUrlOf u)
    · simp [process_sharepoint_attachment, jgetD, hlk, htr, hpure, hok, hsp, d1,
        strategiesOf, attemptsOf, Pure.pure, Except.pure, Bind.bind, Except.bind]
    · by_cases d2 : dl u
      · simp [process_sharepoint_attachment, jgetD, hlk, htr, hpure, hok, hsp, d1, d2,
          strategiesOf, attemptsOf, Pure.pure, Except.pure, Bind.bind, Except.bind]
      · simp [process_sharepoint_attachment, jgetD, hlk, htr, hpure, hok, hsp, d1, d2,
          strategiesOf, attemptsOf, Pure.pure, Except.pure, Bind.bind, Except.bind]
  · by_cases d2 : dl u <;>
      simp [process_sharepoint_attachment, jgetD, hlk, htr, hpure, hok, hsp, d2,
        strategiesOf, attemptsOf, Pure.pure, Except.pure, Bind.bind, Except.bind]

/-- C6 witness: a vendor-hosted reference whose shares-API strategy fails
and whose direct URL succeeds attempts exactly those two URLs in order and
succeeds. -/
theorem C6_strategy_order_witness :
    process_sharepoint_attachment
        (fun v => v == "https://contoso.sharepoint.com/personal/x/Documents/f.pdf")
        (.obj [("contentUrl", .str "https://contoso.sharepoint.com/personal/x/Documents/f.pdf")]) =
      .ok ((strategiesOf "https://contoso.sharepoint.com/personal/x/Documents/f.pdf").any
            (fun v => v == "https://contoso.sharepoint.com/personal/x/Documents/f.pdf"),
           attemptsOf (fun v => v == "https://contoso.sharepoint.com/personal/x/Documents/f.pdf")
            (strategiesOf "https://contoso.sharepoint.com/personal/x/Documents/f.pdf")) ∧
    ((strategiesOf "https://contoso.sharepoint.com/personal/x/Documents/f.pdf").any
        (fun v => v == "https://contoso.sharepoint.com/personal/x/Documents/f.pdf") = false →
      attemptsOf (fun v => v == "https://contoso.sharepoint.com/personal/x/Documents/f.pdf")
          (strategiesOf "https://contoso.sharepoint.com/personal/x/Documents/f.pdf") =
        strategiesOf "https://contoso.sharepoint.com/personal/x/Documents/f.pdf") :=
  C6_strategy_order (fun v => v == "https://contoso.sharepoint.com/personal/x/Documents/f.pdf")
    [("contentUrl", .str "https://contoso.sharepoint.com/personal/x/Documents/f.pdf")]
    "https://contoso.sharepoint.com/personal/x/Documents/f.pdf" rfl (by decide)

/-! C9. Permissive field handling. The claim says every listed field may be
absent or null without the per-message processing raising. Absence is
tolerated everywhere (the get defaults apply), and the Excel row builder
guards from, user, body and chatInfo against null; but a null attachments,
reactions or mentions reaches len and raises in the row builder, and a null
body, attachments or chatInfo raises in the download and cataloguing
steps. Corrected accordingly. -/

def okB : Except PyExc α → Bool
  | .ok _ => true
  | .error _ => false

theorem excel_null_attachments_raises :
    okB (process_excel_row (.obj [("attachments", JVal.null)])) = false := by rfl

theorem download_null_body_raises :
    okB (download_message_attachments (fun _ => false) (.obj [("body", JVal.null)])) = false := by
  rfl

theorem catalog_null_chatInfo_raises :
    okB (catalog_message (.obj [("chatInfo", JVal.null)]) 0) = false := by rfl

theorem excel_null_containers_ok :
    okB (process_excel_row (.obj [("from", JVal.null), ("body", JVal.null),
      ("chatInfo", JVal.null)])) = true := by rfl

/-- C9 counterexample: a message with attachments null makes the Excel row
builder raise; one with body null makes the download step raise; one with
chatInfo null makes the cataloguing step raise — refuting the claim that
null fields never cause the per-message processing to raise. -/
theorem C9_null_fields_counterexample :
    okB (process_excel_row (.obj [("attachments", JVal.null)])) = false ∧
    okB (download_message_attachments (fun _ => false) (.obj [("body", JVal.null)])) = false ∧
    okB (catalog_message (.obj [("chatInfo", JVal.null)]) 0) = false :=
  ⟨excel_null_attachments_raises, download_null_body_raises, catalog_null_chatInfo_raises⟩

theorem excel_missing_fields_ok (idv cdt lmd mt imp subj : JVal) :
    okB (process_excel_row (.obj [("id", idv), ("createdDateTime", cdt),
      ("lastModifiedDateTime", lmd), ("messageType", mt), ("importance", imp),
      ("subject", subj)])) = true := by rfl

theorem download_missing_fields_ok (dl : String → Bool) (idv cdt lmd mt imp subj : JVal) :
    okB (download_message_attachments dl (.obj [("id", idv), ("createdDateTime", cdt),
      ("lastModifiedDateTime", lmd), ("messageType", mt), ("importance", imp),
      ("subject", subj)])) = true := by rfl

theorem catalog_missing_fields_ok (idv cdt lmd mt imp subj : JVal) :
    okB (catalog_message (.obj [("id", idv), ("createdDateTime", cdt),
      ("lastModifiedDateTime", lmd), ("messageType", mt), ("importance", imp),
      ("subject", subj)]) 0) = true := by rfl

/-- C9 as amended: a message from which every listed field (from — and with
it user — body, chatInfo, attachments, reactions, mentions) is absent is
tolerated by all three per-message operations, which substitute empty
defaults and return normally whatever values the remaining scalar fields
hold; and the Excel row builder additionally tolerates stored nulls for
from, body and chatInfo (and hence user). Null attachments, reactions or
mentions in the row builder, and null body, attachments or chatInfo in the
download and cataloguing steps, raise. -/
theorem C9_permissive_defaults :
    (∀ (dl : String → Bool) (idv cdt lmd mt imp subj : JVal),
      okB (process_excel_row (.obj [("id", idv), ("createdDateTime", cdt),
        ("lastModifiedDateTime", lmd), ("messageType", mt), ("importance", imp),
        ("subject", subj)])) = true ∧
      okB (download_message_attachments dl (.obj [("id", idv), ("createdDateTime", cdt),
        ("lastModifiedDateTime", lmd), ("messageType", mt), ("importance", imp),
        ("subject", subj)])) = true ∧
      okB (catalog_message (.obj [("id", idv), ("createdDateTime", cdt),
        ("lastModifiedDateTime", lmd), ("messageType", mt), ("importance", imp),
        ("subject", subj)]) 0) = true)
    ∧
    okB (process_excel_row (.obj [("from", JVal.null), ("body", JVal.null),
      ("chatInfo", JVal.null)])) = true := by
  refine ⟨?_, excel_null_containers_ok⟩
  intro dl idv cdt lmd mt imp subj
  exact ⟨excel_missing_fields_ok idv cdt lmd mt imp subj,
    download_missing_fields_ok dl idv cdt lmd mt imp subj,
    catalog_missing_fields_ok idv cdt lmd mt imp subj⟩

/-- C9 witness: a concrete message carrying only the scalar fields passes
all three per-message operations. -/
theorem C9_permissive_defaults_witness :
    okB (process_excel_row (.obj [("id", .str "m1"), ("createdDateTime", .str "d"),
      ("lastModifiedDateTime", .str "d"), ("messageType", .str "message"),
      ("importance", .str "normal"), ("subject", JVal.null)])) = true ∧
    okB (download_message_attachments (fun _ => false)
      (.obj [("id", .str "m1"), ("createdDateTime", .str "d"),
        ("lastModifiedDateTime", .str "d"), ("messageType", .str "message"),
        ("importance", .str "normal"), ("subject", JVal.null)])) = true ∧
    okB (catalog_message (.obj [("id", .str "m1"), ("createdDateTime", .str "d"),
      ("lastModifiedDateTime", .str "d"), ("messageType", .str "message"),
      ("importance", .str "normal"), ("subject", JVal.null)]) 0) = true :=
  C9_permissive_defaults.1 (fun _ => false) (.str "m1") (.str "d") (.str "d")
    (.str "message") (.str "normal") JVal.null

/-! Support lemmas for the extraction claims. -/

theorem strOf_append (a b : List Char) : strOf (a ++ b) = strOf a ++ strOf b := rfl

theorem strOf_toList_self (s : String) : strOf s.toList = s := rfl

theorem strOf_inj (a b : List Char) (h : strOf a = strOf b) : a = b :=
  congrArg String.data h

theorem exists_of_findSome (f : α → Option β) :
    ∀ (l : List α) (b : β), l.findSome? f = some b → ∃ a ∈ l, f a = some b := by
  intro l
  induction l with
  | nil => intro b h; simp [List.findSome?] at h
  | cons x xs ih =>
    intro b h
    rw [List.findSome?] at h
    cases hf : f x with
    | some v =>
      rw [hf] at h
      exact ⟨x, by simp, by rw [hf]; exact h⟩
    | none =>
      rw [hf] at h
      obtain ⟨a, ha, hfa⟩ := ih b h
      exact ⟨a, by simp [ha], hfa⟩

theorem matchAtHosted_shape (cs m r : List Char) (h : matchAtHosted cs = some (m, r)) :
    ∃ X Y, m = hostedLit1 ++ X ++ hostedSep2 ++ Y ++ hostedSep3 := by
  unfold matchAtHosted at h
  cases hd : dropLit hostedLit1 cs with
  | none => rw [hd] at h; simp at h
  | some rest =>
    rw [hd] at h
    simp only at h
    obtain ⟨xt, hxt, hinner⟩ := exists_of_findSome _ _ _ h
    by_cases hx : xt.1.isEmpty
    · simp [hx] at hinner
    · rw [if_neg hx] at hinner
      obtain ⟨yt, hyt, hyy⟩ := exists_of_findSome _ _ _ hinner
      by_cases hy : yt.1.isEmpty
      · simp [hy] at hyy
      · rw [if_neg hy] at hyy
        rw [Option.some.injEq, Prod.mk.injEq] at hyy
        exact ⟨xt.1, yt.1, hyy.1.symm⟩

theorem mem_findallWith (f : List Char → Option (List Char × List Char)) :
    ∀ (fuel : Nat) (cs m : List Char), m ∈ findallWith f fuel cs →
      ∃ cs' r, f cs' = some (m, r) := by
  intro fuel
  induction fuel with
  | zero => intro cs m h; simp [findallWith] at h
  | succ n ih =>
    intro cs m h
    cases cs with
    | nil => simp [findallWith] at h
    | cons c rest =>
      rw [findallWith] at h
      cases hf : f (c :: rest) with
      | some pr =>
        rw [hf] at h
        rcases List.mem_cons.mp h with h1 | h2
        · subst h1
          exact ⟨c :: rest, pr.2, by rw [hf]⟩
        · exact ih pr.2 m h2
      | none =>
        rw [hf] at h
        exact ih rest m h

theorem isPrefixOf_append_self (n b : List Char) : n.isPrefixOf (n ++ b) = true := by
  induction n with
  | nil => cases b <;> rfl
  | cons c cs ih => simp [List.isPrefixOf, ih]

theorem containsSub_append_self (n b : List Char) : containsSub n (n ++ b) = true := by
  cases n with
  | nil => cases b <;> simp [containsSub, List.isPrefixOf]
  | cons c cs => simp [containsSub, isPrefixOf_append_self (c :: cs) b]

theorem containsSub_of_middle (n : List Char) :
    ∀ (a b : List Char), containsSub n (a ++ (n ++ b)) = true := by
  intro a
  induction a with
  | nil => intro b; simpa using containsSub_append_self n b
  | cons c cs ih =>
    intro b
    simp only [List.cons_append]
    cases n with
    | nil => simp [containsSub, List.isPrefixOf]
    | cons d ds =>
      have h2 := ih b
      simp only [containsSub]
      simp only [List.cons_append] at h2 ⊢
      rw [h2]
      simp

/-- Every URL the hosted-content pattern matches contains the
hostedContents resource segment. -/
theorem hosted_contains (cs u : List Char) (h : u ∈ findallHosted cs) :
    containsSub "hostedContents".toList u = true := by
  obtain ⟨cs', r, hm⟩ := mem_findallWith matchAtHosted cs.length cs u h
  obtain ⟨X, Y, hu⟩ := matchAtHosted_shape cs' u r hm
  have hform : u = (hostedLit1 ++ X ++ ['/']) ++
      ("hostedContents".toList ++ ('/' :: (Y ++ hostedSep3))) := by
    rw [hu]
    simp [hostedSep2, List.append_assoc]
  rw [hform]
  exact containsSub_of_middle _ _ _

theorem splitOnChar_length (c : Char) :
    ∀ l : List Char, (splitOnChar c l).length = l.count c + 1 := by
  intro l
  induction l with
  | nil => rfl
  | cons x rest ih =>
    by_cases hx : x = c
    · simp [splitOnChar, hx, List.count_cons, ih]
    · have hne : splitOnChar c rest ≠ [] := by
        intro hcon
        rw [hcon] at ih
        simp at ih
      obtain ⟨h0, t0, hr⟩ : ∃ h0 t0, splitOnChar c rest = h0 :: t0 := by
        cases hsp : splitOnChar c rest with
        | nil => exact absurd hsp hne
        | cons a as => exact ⟨a, as, rfl⟩
      rw [hr] at ih
      simp only [splitOnChar, if_neg hx, hr]
      simp only [List.length_cons] at ih ⊢
      rw [List.count_cons]
      simp [hx]
      omega

theorem getD_mem {α : Type} : ∀ (l : List α) (n : Nat) (d : α),
    n < l.length → l.getD n d ∈ l := by
  intro l
  induction l with
  | nil => intro n d h; simp at h
  | cons a as ih =>
    intro n d h
    cases n with
    | zero => simp [List.getD]
    | succ k =>
      have hm := ih k d (by simpa using h)
      have : (a :: as).getD (k + 1) d = as.getD k d := rfl
      rw [this]
      exact List.mem_cons_of_mem a hm

/-! C5. Hosted-content extraction: naming from the itemid attribute (or a
URL path segment with the .jpg default), hosted_image source kind, and
exclusion of hosted URLs from the heuristic matches. -/

/-- C5: a body with exactly one hosted-content URL and an itemid attribute
extracts exactly one reference named image_\x7bitemid\x7d.jpg, catalogued
with the hosted_image kind, and that URL is never also reported as a
heuristic URL match (the filter drops every match containing
hostedContents, which every hosted URL does); with no itemid present the
name falls back to image_\x7bsegment\x7d.jpg where the segment is the
third-from-last slash-separated path segment of the URL (a path segment of
the URL), with the .jpg default extension. -/
theorem C5_hosted_extraction :
    (∀ (content : String) (u id : List Char),
      findallHosted content.toList = [u] →
      searchItemId content.toList = some id →
      extract_hosted_content_urls content = [(strOf u, "image_" ++ strOf id ++ ".jpg")] ∧
      (∀ mid md fu : JVal, hostedRowsOf mid md fu content =
        [{ tipo := "hosted_image", message_id := mid, message_date := md, from_user := fu,
           attachment_id := .str ("image_" ++ strOf id ++ ".jpg"),
           attachment_name := .str ("image_" ++ strOf id ++ ".jpg"),
           content_type := .str "image", content_url := .str (strOf u),
           web_url := .str (strOf u), size_bytes := .str "",
           observacoes := "Imagem incorporada na mensagem" }]) ∧
      strOf u ∉ heuristicFileUrls content)
    ∧
    (∀ (content : String) (u : List Char),
      findallHosted content.toList = [u] →
      searchItemId content.toList = none →
      extract_hosted_content_urls content =
        [(strOf u, "image_" ++
          strOf ((splitOnChar '/' u).getD ((splitOnChar '/' u).length - 3) []) ++ ".jpg")] ∧
      (splitOnChar '/' u).getD ((splitOnChar '/' u).length - 3) [] ∈ splitOnChar '/' u) := by
  constructor
  · intro content u id hfa hid
    have hname : strOf (hostedName content.toList u) = "image_" ++ strOf id ++ ".jpg" := by
      rw [hostedName, hid, strOf_append, strOf_append, strOf_toList_self, strOf_toList_self]
    refine ⟨?_, ?_, ?_⟩
    · rw [extract_hosted_content_urls, hfa]
      simp only [List.map_cons, List.map_nil, hname]
    · intro mid md fu
      rw [hostedRowsOf, extract_hosted_content_urls, hfa]
      simp only [List.map_cons, List.map_nil, hname]
    · intro hmem
      rw [heuristicFileUrls] at hmem
      simp only [List.mem_map, List.mem_filter] at hmem
      obtain ⟨m, ⟨hmm, hnc⟩, hms⟩ := hmem
      have hmu : m = u := strOf_inj _ _ hms
      subst hmu
      rw [hosted_contains content.toList m
        (by rw [hfa]; exact List.mem_singleton_self m)] at hnc
      simp at hnc
  · intro content u hfa hnone
    have hmem_u : u ∈ findallHosted content.toList := by
      rw [hfa]; exact List.mem_singleton_self u
    obtain ⟨cs', r, hm⟩ := mem_findallWith _ _ _ u hmem_u
    obtain ⟨X, Y, hu⟩ := matchAtHosted_shape cs' u r hm
    have hcount : 2 ≤ u.count '/' := by
      have hc : u.count '/' = hostedLit1.count '/' +
          (X.count '/' + (hostedSep2.count '/' + (Y.count '/' + hostedSep3.count '/'))) := by
        rw [hu]; simp [List.count_append]
      have h2 : hostedSep2.count '/' = 2 := by decide
      omega
    have hlen3 : 3 ≤ (splitOnChar '/' u).length := by
      rw [splitOnChar_length]; omega
    have hidx : (splitOnChar '/' u).length - 3 < (splitOnChar '/' u).length := by omega
    refine ⟨?_, getD_mem _ _ _ hidx⟩
    have hname : strOf (hostedName content.toList u) = "image_" ++
        strOf ((splitOnChar '/' u).getD ((splitOnChar '/' u).length - 3) []) ++ ".jpg" := by
      rw [hostedName, hnone]
      rw [strOf_append, strOf_append, strOf_toList_self, strOf_toList_self]
    rw [extract_hosted_content_urls, hfa]
    simp only [List.map_cons, List.map_nil, hname]

/-- C5 witness: a body with one hosted URL and itemid 1-abc yields the
single reference image_1-abc.jpg with the hosted_image row kind, the URL
absent from the heuristic matches; a body with no itemid falls back to the
third-from-last path segment. -/
theorem C5_hosted_extraction_witness :
    (extract_hosted_content_urls
        "<img itemid=\"1-abc\" src=\"https://graph.microsoft.com/v1.0/chats/c/hostedContents/h7/$value\">" =
      [(strOf "https://graph.microsoft.com/v1.0/chats/c/hostedContents/h7/$value".toList,
        "image_" ++ strOf "1-abc".toList ++ ".jpg")] ∧
     strOf "https://graph.microsoft.com/v1.0/chats/c/hostedContents/h7/$value".toList ∉
       heuristicFileUrls
         "<img itemid=\"1-abc\" src=\"https://graph.microsoft.com/v1.0/chats/c/hostedContents/h7/$value\">") ∧
    extract_hosted_content_urls
        "<img src=\"https://graph.microsoft.com/v1.0/chats/c/hostedContents/h7/$value\">" =
      [(strOf "https://graph.microsoft.com/v1.0/chats/c/hostedContents/h7/$value".toList,
        "image_" ++
          strOf ((splitOnChar '/'
            "https://graph.microsoft.com/v1.0/chats/c/hostedContents/h7/$value".toList).getD
              ((splitOnChar '/'
                "https://graph.microsoft.com/v1.0/chats/c/hostedContents/h7/$value".toList).length - 3)
              []) ++ ".jpg")] :=
  ⟨⟨(C5_hosted_extraction.1
      "<img itemid=\"1-abc\" src=\"https://graph.microsoft.com/v1.0/chats/c/hostedContents/h7/$value\">"
      "https://graph.microsoft.com/v1.0/chats/c/hostedContents/h7/$value".toList
      "1-abc".toList (by decide) (by decide)).1,
    (C5_hosted_extraction.1
      "<img itemid=\"1-abc\" src=\"https://graph.microsoft.com/v1.0/chats/c/hostedContents/h7/$value\">"
      "https://graph.microsoft.com/v1.0/chats/c/hostedContents/h7/$value".toList
      "1-abc".toList (by decide) (by decide)).2.2⟩,
   (C5_hosted_extraction.2
      "<img src=\"https://graph.microsoft.com/v1.0/chats/c/hostedContents/h7/$value\">"
      "https://graph.microsoft.com/v1.0/chats/c/hostedContents/h7/$value".toList
      (by decide) (by decide)).1⟩

/-! C10. One itemid names every hosted image of the message: the search
runs over the whole body, not per matched URL. -/

/-- C10: whenever the body holds an itemid attribute and two or more
distinct hosted-content URLs, every extracted reference receives the same
suggested name image_\x7bid\x7d.jpg built from the first itemid of the
whole body, so distinct hosted images share one suggested name. -/
theorem C10_shared_itemid_name (content : String) (id : List Char)
    (hid : searchItemId content.toList = some id)
    (hlen : 2 ≤ (findallHosted content.toList).length)
    (hnd : (findallHosted content.toList).Nodup) :
    (∀ p ∈ extract_hosted_content_urls content, p.2 = "image_" ++ strOf id ++ ".jpg") ∧
    (∀ p ∈ extract_hosted_content_urls content, ∀ q ∈ extract_hosted_content_urls content,
      p.2 = q.2) := by
  have hall : ∀ p ∈ extract_hosted_content_urls content,
      p.2 = "image_" ++ strOf id ++ ".jpg" := by
    intro p hp
    rw [extract_hosted_content_urls] at hp
    simp only [List.mem_map] at hp
    obtain ⟨m, hm, hpe⟩ := hp
    rw [← hpe]
    show strOf (hostedName content.toList m) = _
    rw [hostedName, hid, strOf_append, strOf_append, strOf_toList_self, strOf_toList_self]
  exact ⟨hall, fun p hp q hq => (hall p hp).trans (hall q hq).symm⟩

/-- C10 witness: two distinct hosted URLs in one body with itemid X1 both
receive the suggested name image_X1.jpg. -/
theorem C10_shared_itemid_name_witness :
    (("https://graph.microsoft.com/v1.0/chats/c/hostedContents/h1/$value",
      "image_X1.jpg") : String × String).2 = "image_" ++ strOf "X1".toList ++ ".jpg" ∧
    (("https://graph.microsoft.com/v1.0/chats/c/hostedContents/h2/$value",
      "image_X1.jpg") : String × String).2 = "image_" ++ strOf "X1".toList ++ ".jpg" :=
  ⟨(C10_shared_itemid_name
      "<img itemid=\"X1\" src=\"https://graph.microsoft.com/v1.0/chats/c/hostedContents/h1/$value\"> <img src=\"https://graph.microsoft.com/v1.0/chats/c/hostedContents/h2/$value\">"
      "X1".toList (by decide) (by decide) (by decide)).1
      ("https://graph.microsoft.com/v1.0/chats/c/hostedContents/h1/$value", "image_X1.jpg")
      (by decide),
   (C10_shared_itemid_name
      "<img itemid=\"X1\" src=\"https://graph.microsoft.com/v1.0/chats/c/hostedContents/h1/$value\"> <img src=\"https://graph.microsoft.com/v1.0/chats/c/hostedContents/h2/$value\">"
      "X1".toList (by decide) (by decide) (by decide)).1
      ("https://graph.microsoft.com/v1.0/chats/c/hostedContents/h2/$value", "image_X1.jpg")
      (by decide)⟩

end Teams
